import Mathlib

/-!
Shallow embedding of `src/emu/devintrf.c` (MAME device interface layer).

Modelling conventions, used throughout:

* The global intrusive list (`device_config::next`) is modelled by the order of a
  Lean `List device_config`: splicing a record onto the end of the chain is
  `· ++ [device]`, and unlinking is removal from the list.  The per-type intrusive
  sub-chain (`device_config::typenext`) is kept explicit: every record carries a
  `typenext : Option Nat` field holding the `devid` of the next record of the same
  type, exactly as the C code maintains it, and the chain walks of
  `device_list_add` / `device_list_remove` are translated as fuelled id-chases
  (the fuel is the list length; the C code would loop forever or crash on a
  corrupted chain, the model simply stops, and all theorems are proved on
  well-formed states where the fuel is never exhausted).
* C pointers become `Option`: `NULL` is `none`.  A `device_type` is a function
  pointer in C used only as an identity token plus an info table; it is modelled
  as a `Nat` index into an environment `ti : device_type → deviceinfo_fns`
  describing what the type's info function answers
  (`DEVINFO_INT_TOKEN_BYTES`, `DEVINFO_INT_CLASS`,
  `DEVINFO_INT_INLINE_CONFIG_BYTES`, `DEVINFO_FCT_SET_INFO`,
  `DEVINFO_FCT_START`).  `DEVICE_TYPE_WILDCARD` appears only as a query filter,
  so filters are `Option device_type` with `none` playing the wildcard.
* `fatalerror` does not return; functions that can hit it return `Except Fatal α`.
  At the moment an error is produced nothing has been mutated, mirroring the C
  code paths where `fatalerror` fires before any state change.
* A device start function `(*start)(device)` may inspect the whole machine, in
  particular the live `started` flags of the other devices; it is modelled as a
  function of the device record and the current device list at the moment of the
  call (the in-sweep, already-updated list, exactly as the C start loop exposes).
* `malloc_or_die` + `memset 0` of the token is modelled by setting
  `token := some tokenbytes` (an allocated, zero-filled block of that size);
  `free` is modelled by setting it back to `none`, and `device_list_stop`
  additionally reports how many `free` calls it performed so that double-free
  behaviour is observable.  `device_list_add` never writes the `tokenbytes`
  field: the freshly malloc'd record keeps indeterminate bytes there until
  `device_list_start` first assigns it, so the model takes that residue as an
  explicit `junk` argument of `device_list_add` and stores it unchanged.
* `assert` is a debug-build no-op and is not modelled; the preconditions it
  expresses appear as hypotheses of the theorems that need them.
-/

namespace Devintrf

/-- Identity of a device type (`device_type` in C is the info-function pointer,
used as an identity token; here a plain index). -/
abbrev device_type := Nat

/-- Model of one `device_config` record (devintrf.h).  `devid` stands for the
record's address, used only as the target of `typenext` links; `machine` is the
back-reference to the running machine (`true` = non-NULL). -/
structure device_config where
  devid : Nat
  type : device_type
  dclass : Nat
  tag : String
  static_config : Option Nat
  inline_config : Option (List Nat)
  set_info : Bool
  started : Bool
  token : Option Nat
  tokenbytes : Nat
  machine : Bool
  region : Option Nat
  regionbytes : Nat
  typenext : Option Nat
deriving DecidableEq

/-- What a device type's info function answers, decomposed field by field
(the C side is one switch over `state`). -/
structure deviceinfo_fns where
  token_bytes : Nat
  inline_config_bytes : Nat
  dclass : Nat
  has_set_info : Bool
  start : device_config → List device_config → Bool

/-- Fatal configuration errors (`fatalerror` calls in devintrf.c). -/
inductive Fatal where
  | duplicateDevice (type : device_type) (tag : String)
  | nonexistentDevice (type : device_type) (tag : String)
  | zeroTokenLength (tag : String)
  | circularDependency (unstarted total : Nat)
deriving DecidableEq

/-- `DEVICE_TYPE_WILDCARD`, usable only as a query filter. -/
def DEVICE_TYPE_WILDCARD : Option device_type := none

/-- `device_matches_type`: a `none` filter is `DEVICE_TYPE_WILDCARD`. -/
def device_matches_type (d : device_config) (type : Option device_type) : Bool :=
  match type with
  | none => true
  | some t => d.type == t

/-- `device_list_items`: count the devices matching a type filter. -/
def device_list_items (l : List device_config) (type : Option device_type) : Nat :=
  l.countP (fun d => device_matches_type d type)

/-- `device_list_first`: first device matching a type filter. -/
def device_list_first (l : List device_config) (type : Option device_type) :
    Option device_config :=
  l.find? (fun d => device_matches_type d type)

/-- Resolve a `devid` to its record (a pointer dereference in C). -/
def findById (l : List device_config) (i : Nat) : Option device_config :=
  l.find? (fun d => d.devid == i)

/-- Successor of the record with id `i` in the global chain
(`device_config::next`). -/
def nextInList (l : List device_config) (i : Nat) : Option device_config :=
  match l with
  | [] => none
  | d :: rest => if d.devid == i then rest.head? else nextInList rest i

/-- `device_list_next`: with the wildcard the global `next` link is followed,
with a concrete type the `typenext` link is followed. -/
def device_list_next (l : List device_config) (prevdevice : device_config)
    (type : Option device_type) : Option device_config :=
  match type with
  | none => nextInList l prevdevice.devid
  | some _ => prevdevice.typenext.bind (findById l)

/-- `device_list_find_by_tag`. -/
def device_list_find_by_tag (l : List device_config) (type : Option device_type)
    (tag : String) : Option device_config :=
  l.find? (fun d => device_matches_type d type && d.tag == tag)

/-- Loop body of `device_list_index` with its running `index` counter. -/
def device_list_index_go (type : Option device_type) (tag : String) :
    List device_config → Nat → Int
  | [], _ => -1
  | d :: rest, idx =>
    if device_matches_type d type then
      if d.tag == tag then (idx : Int)
      else device_list_index_go type tag rest (idx + 1)
    else device_list_index_go type tag rest idx

/-- `device_list_index`: zero-based index of a tag among the type matches,
`-1` when absent. -/
def device_list_index (l : List device_config) (type : Option device_type)
    (tag : String) : Int :=
  device_list_index_go type tag l 0

/-- `device_list_find_by_index`: the C loop tests
`device_matches_type(curdev, type) && index-- == 0`, so the counter only
decrements on matching records; a negative index never returns a device. -/
def device_list_find_by_index (l : List device_config) (type : Option device_type)
    (index : Int) : Option device_config :=
  match l with
  | [] => none
  | d :: rest =>
    if device_matches_type d type then
      if index = 0 then some d else device_list_find_by_index rest type (index - 1)
    else device_list_find_by_index rest type index

/-- Id of the first device of a concrete type (`device_list_first` in
`device_list_add` / `device_list_remove`, called with a concrete type). -/
def firstOfTypeId (l : List device_config) (type : device_type) : Option Nat :=
  (device_list_first l (some type)).map (fun d => d.devid)

/-- Walk a `typenext` chain collecting the visited ids, with fuel. -/
def chainFrom (l : List device_config) : Nat → Option Nat → List Nat
  | _, none => []
  | 0, some i => [i]
  | fuel + 1, some i =>
    i :: (match findById l i with
          | none => []
          | some d => chainFrom l fuel d.typenext)

/-- Overwrite the `typenext` field of the record with id `i`
(a store through the pointer the C walk ended on). -/
def setTypenextById (l : List device_config) (i : Nat) (v : Option Nat) :
    List device_config :=
  l.map (fun d => if d.devid == i then { d with typenext := v } else d)

/-- The type-chain splice of `device_list_add`: walk the type chain to its end
and make its last record point at the new id; when the type has no devices yet
the C code writes only a local variable, so nothing changes. -/
def addTypeLink (l : List device_config) (type : device_type) (newid : Nat) :
    List device_config :=
  match (chainFrom l l.length (firstOfTypeId l type)).getLast? with
  | none => l
  | some lastid => setTypenextById l lastid (some newid)

/-- Registry state: the device list plus the allocator counter handing out
fresh record ids. -/
structure device_list_state where
  devices : List device_config
  nextid : Nat
deriving DecidableEq

/-- The record `device_list_add` populates (devintrf.c lines 105-116): every
pointer-like runtime field nulled, `regionbytes` zeroed, the inline config blob
zero-filled (`NULL` when the type declares length 0), the class cached from the
type, and the set-info entry point cached.  The C code assigns every field of
the struct except `tokenbytes`, which keeps whatever the `malloc_or_die` block
happened to contain until `device_list_start` first writes it; the model takes
that indeterminate residue as the explicit argument `junk` and stores it
unchanged rather than inventing a value. -/
def addedDevice (ti : device_type → deviceinfo_fns) (s : device_list_state)
    (type : device_type) (tag : String) (junk : Nat) : device_config :=
  { devid := s.nextid
    type := type
    dclass := (ti type).dclass
    tag := tag
    static_config := none
    inline_config := if (ti type).inline_config_bytes == 0 then none
                     else some (List.replicate (ti type).inline_config_bytes 0)
    set_info := (ti type).has_set_info
    started := false
    token := none
    tokenbytes := junk
    machine := false
    region := none
    regionbytes := 0
    typenext := none }

/-- `device_list_add`: fatal on a duplicate `(type, tag)` (detected during the
scan to the end of the list, before anything is allocated or linked), otherwise
build the record, splice it onto the end of the type chain and onto the end of
the global chain, and return it.  `junk` is the indeterminate content the
malloc'd record carries in its never-assigned `tokenbytes` field. -/
def device_list_add (ti : device_type → deviceinfo_fns) (s : device_list_state)
    (type : device_type) (tag : String) (junk : Nat) :
    Except Fatal (device_list_state × device_config) :=
  if s.devices.any (fun d => d.type == type && d.tag == tag) then
    .error (.duplicateDevice type tag)
  else
    .ok ({ devices := addTypeLink s.devices type s.nextid ++
             [addedDevice ti s type tag junk]
           nextid := s.nextid + 1 }, addedDevice ti s type tag junk)

/-- Unlink walk of `device_list_remove`: starting at the type chain head, chase
`typenext` until the link pointing at the target is found and redirect it past
the target; when the target is the chain head only a local variable is written. -/
def typeUnlinkGo (l : List device_config) (targetid : Nat) (tnext : Option Nat) :
    Nat → Nat → List device_config
  | _, 0 => l
  | cur, fuel + 1 =>
    match findById l cur with
    | none => l
    | some d =>
      match d.typenext with
      | none => l
      | some j =>
        if j == targetid then setTypenextById l cur tnext
        else typeUnlinkGo l targetid tnext j fuel

/-- Remove a device from its type chain (`device_list_remove`, first half). -/
def typeUnlink (l : List device_config) (type : device_type)
    (target : device_config) : List device_config :=
  match firstOfTypeId l type with
  | none => l
  | some h =>
    if h == target.devid then l
    else typeUnlinkGo l target.devid target.typenext h l.length

/-- Drop the first `(type, tag)` match from the global chain
(`*devptr = device->next`). -/
def removeFirstMatch (type : device_type) (tag : String) :
    List device_config → List device_config
  | [] => []
  | d :: rest =>
    if d.type == type && d.tag == tag then rest
    else d :: removeFirstMatch type tag rest

/-- `device_list_remove`: fatal when the `(type, tag)` pair is absent, otherwise
unlink from the type chain, then from the global chain, and free the record. -/
def device_list_remove (s : device_list_state) (type : device_type) (tag : String) :
    Except Fatal device_list_state :=
  match s.devices.find? (fun d => d.type == type && d.tag == tag) with
  | none => .error (.nonexistentDevice type tag)
  | some device =>
    .ok { devices := removeFirstMatch type tag (typeUnlink s.devices type device)
          nextid := s.nextid }

/-- A registry-building operation, for stating invariants over arbitrary
operation sequences. -/
inductive DevOp where
  | addOp (type : device_type) (tag : String) (junk : Nat)
  | removeOp (type : device_type) (tag : String)

/-- Run one operation. -/
def applyOp (ti : device_type → deviceinfo_fns) (s : device_list_state) :
    DevOp → Except Fatal device_list_state
  | .addOp t tag junk => (device_list_add ti s t tag junk).map Prod.fst
  | .removeOp t tag => device_list_remove s t tag

/-- Run a sequence of operations, stopping at the first fatal error. -/
def applyOps (ti : device_type → deviceinfo_fns) :
    List DevOp → device_list_state → Except Fatal device_list_state
  | [], s => .ok s
  | op :: ops, s =>
    match applyOp ti s op with
    | .error e => .error e
    | .ok s1 => applyOps ti ops s1

/-- The empty registry. -/
def emptyState : device_list_state := { devices := [], nextid := 0 }

/-- `device_build_tag`: prefix the parent device's tag and a `:` separator when
a parent is given (`astring_cpyc` / `astring_catc` build plain concatenation). -/
def device_build_tag (device : Option device_config) (tag : String) : String :=
  match device with
  | some d => d.tag ++ ":" ++ tag
  | none => tag

/-- Index of the last occurrence of `:` in a character list
(`strrchr(sourcetag, ':')`). -/
def lastColonIdx : List Char → Option Nat
  | [] => none
  | c :: rest =>
    match lastColonIdx rest with
    | some i => some (i + 1)
    | none => if c = ':' then some 0 else none

/-- `device_inherit_tag`: keep the source tag up to and including its last `:`
(`astring_cpych(dest, sourcetag, divider + 1 - sourcetag)`) and append the new
tag; with no separator the new tag is returned unchanged. -/
def device_inherit_tag (sourcetag : String) (tag : String) : String :=
  match lastColonIdx sourcetag.toList with
  | none => tag
  | some i => String.mk (sourcetag.toList.take (i + 1)) ++ tag

/-- `TEMP_STRING_POOL_ENTRIES`. -/
def TEMP_STRING_POOL_ENTRIES : Nat := 16

/-- `MAX_STRING_LENGTH` (capacity of each pool buffer; contents are modelled as
unbounded strings, the capacity itself plays no role in the claims). -/
def MAX_STRING_LENGTH : Nat := 256

/-- State of the scratch string pool: the buffer contents and the rotating
cursor `temp_string_pool_index` (a monotone counter, reduced mod the pool size
at each access). -/
structure temp_string_state where
  pool : List String
  index : Nat
deriving DecidableEq

/-- `get_temp_string_buffer`: hand out buffer `index % TEMP_STRING_POOL_ENTRIES`
(returned here as the buffer's pool slot, standing for its address), clear it to
the empty string (`string[0] = 0`), and advance the cursor. -/
def get_temp_string_buffer (s : temp_string_state) : Nat × temp_string_state :=
  let bufid := s.index % TEMP_STRING_POOL_ENTRIES
  (bufid, { pool := s.pool.set bufid "", index := s.index + 1 })

/-- The pool as the program starts: 16 empty buffers, cursor 0. -/
def initial_temp_string_state : temp_string_state :=
  { pool := List.replicate TEMP_STRING_POOL_ENTRIES "", index := 0 }

/-- Perform `n` sequential acquisitions, collecting the returned buffer slots. -/
def acquireN : Nat → temp_string_state → List Nat × temp_string_state
  | 0, s => ([], s)
  | n + 1, s =>
    let r := get_temp_string_buffer s
    let rs := acquireN n r.2
    (r.1 :: rs.1, rs.2)

/-- The running machine as this layer sees it: its device list and the external
memory-region lookup (`memory_region` / `memory_region_length`). -/
structure running_machine where
  devicelist : List device_config
  memRegion : String → Option Nat
  memRegionLength : String → Nat

/-- `device_list_attach_machine`: point every device's machine back-reference at
the machine. -/
def device_list_attach_machine (m : running_machine) : running_machine :=
  { m with devicelist := m.devicelist.map (fun d => { d with machine := true }) }

/-- Allocation step of `device_list_start` for one device: query the token size
(fatal when zero), allocate and zero the token, and fill in the remaining
runtime fields from the machine's region lookup. -/
def allocDevice (ti : device_type → deviceinfo_fns) (m : running_machine)
    (d : device_config) : Except Fatal device_config :=
  if (ti d.type).token_bytes = 0 then
    .error (.zeroTokenLength d.tag)
  else
    .ok { d with
          token := some (ti d.type).token_bytes
          tokenbytes := (ti d.type).token_bytes
          machine := true
          region := m.memRegion d.tag
          regionbytes := m.memRegionLength d.tag }

/-- First loop of `device_list_start`: allocate runtime state for every device
in global order. -/
def allocDevices (ti : device_type → deviceinfo_fns) (m : running_machine) :
    List device_config → Except Fatal (List device_config)
  | [] => .ok []
  | d :: rest =>
    match allocDevice ti m d with
    | .error e => .error e
    | .ok d1 =>
      match allocDevices ti m rest with
      | .error e => .error e
      | .ok rest1 => .ok (d1 :: rest1)

/-- One full sweep of the start loop: visit every not-yet-started device in
global order and call its start function; the flag is set immediately, so later
devices of the same sweep observe it (`pre` is the already-visited prefix). -/
def sweepGo (ti : device_type → deviceinfo_fns) (pre : List device_config) :
    List device_config → List device_config
  | [] => pre
  | d :: rest =>
    let d1 := if d.started then d
              else if (ti d.type).start d (pre ++ d :: rest) then
                { d with started := true }
              else d
    sweepGo ti (pre ++ [d1]) rest

/-- Number of started devices; one sweep's `numstarted` accumulator ends up
equal to this count of the post-sweep list. -/
def countStarted (l : List device_config) : Nat :=
  l.countP (fun d => d.started)

/-- Convergence loop of `device_list_start` (`while (numstarted < devcount)`).
`numstarted` entering each iteration equals the current started count (it is `0`
on entry, where the asserted precondition is that nothing is started, and the
sweep accumulator afterwards), and `sweeps` counts completed sweeps.  The C loop
terminates because each iteration either fatals or strictly increases the
count; that argument is the termination measure here, so the model is total. -/
def startLoop (ti : device_type → deviceinfo_fns) (devcount : Nat)
    (devs : List device_config) (sweeps : Nat) :
    Except Fatal (List device_config × Nat) :=
  if h1 : countStarted devs < devcount then
    if h2 : countStarted (sweepGo ti [] devs) = countStarted devs then
      .error (.circularDependency (devcount - countStarted (sweepGo ti [] devs)) devcount)
    else startLoop ti devcount (sweepGo ti [] devs) (sweeps + 1)
  else
    .ok (devs, sweeps)
termination_by devcount - countStarted devs
decreasing_by
  have key : ∀ (rest pre : List device_config),
      List.countP (fun d => d.started) pre + List.countP (fun d => d.started) rest ≤
        List.countP (fun d => d.started) (sweepGo ti pre rest) := by
    intro rest
    induction rest with
    | nil => intro pre; simp [sweepGo]
    | cons d rest ih =>
      intro pre
      simp only [sweepGo]
      refine le_trans ?_ (ih (pre ++ [if d.started then d
        else if (ti d.type).start d (pre ++ d :: rest) then { d with started := true } else d]))
      simp only [List.countP_append, List.countP_cons, List.countP_nil]
      by_cases hd : d.started <;> by_cases hs : (ti d.type).start d (pre ++ d :: rest) <;>
        simp [hd, hs] <;> omega
  have h3 := key devs []
  simp only [List.countP_nil, Nat.zero_add] at h3
  simp only [countStarted] at h1 h2 ⊢
  omega

/-- `device_list_start`: allocation pass, then the convergence loop; the result
carries the number of sweeps the loop ran. -/
def device_list_start (ti : device_type → deviceinfo_fns) (m : running_machine) :
    Except Fatal (running_machine × Nat) :=
  match allocDevices ti m m.devicelist with
  | .error e => .error e
  | .ok devs =>
    match startLoop ti devs.length devs 0 with
    | .error e => .error e
    | .ok r => .ok ({ m with devicelist := r.1 }, r.2)

/-- Null out one device's runtime fields (`device_list_stop`, per-device tail). -/
def stopDevice (d : device_config) : device_config :=
  { d with token := none, tokenbytes := 0, machine := false,
           region := none, regionbytes := 0 }

/-- `device_list_stop`: for every device call its optional stop function (an
external effect), free the token under the `token != NULL` guard, and null the
runtime fields.  The second component counts the `free` calls performed. -/
def device_list_stop : List device_config → List device_config × Nat
  | [] => ([], 0)
  | d :: rest =>
    let r := device_list_stop rest
    (stopDevice d :: r.1, (if d.token.isSome then 1 else 0) + r.2)

/-- Ids of the records of a list, in list order. -/
def idsOf (l : List device_config) : List Nat := l.map (fun d => d.devid)

/-- Well-formedness of the `typenext` links: every record points at the next
record of its own type in global order (`none` when it is the last). -/
def wfLinks : List device_config → Prop
  | [] => True
  | d :: rest =>
    d.typenext = (rest.find? (fun e => e.type == d.type)).map (fun e => e.devid) ∧
      wfLinks rest

/-- Well-formed registry state: distinct record ids, consistent type chains,
and the id counter ahead of every allocated id. -/
def wfState (s : device_list_state) : Prop :=
  (idsOf s.devices).Nodup ∧ wfLinks s.devices ∧ ∀ d ∈ s.devices, d.devid < s.nextid

/-- Runtime fields in their null/zero (pre-start / post-stop) configuration. -/
def runtime_fields_null (d : device_config) : Prop :=
  d.token = none ∧ d.tokenbytes = 0 ∧ d.machine = false ∧
    d.region = none ∧ d.regionbytes = 0

/-- Test fixture: a freshly configured device record with null runtime fields
(the shape `device_list_add` produces). -/
def mkDevice (i : Nat) (ty : device_type) (tag : String) : device_config :=
  { devid := i, type := ty, dclass := 0, tag := tag, static_config := none,
    inline_config := none, set_info := false, started := false, token := none,
    tokenbytes := 0, machine := false, region := none, regionbytes := 0,
    typenext := none }

/-- Scenario for the dependency-chain claim: device `i` (of type `i`, sitting at
list position `i`) declares one byte of token state and a start function that
succeeds exactly when device `i - 1` is already started (device `0` always
succeeds). -/
def chainTi : device_type → deviceinfo_fns := fun t =>
  { token_bytes := 1, inline_config_bytes := 0, dclass := 0, has_set_info := false,
    start := fun _ devs =>
      if t = 0 then true
      else match devs[t - 1]? with
           | some d => d.started
           | none => false }

/-- The chain machine: devices `0, 1, …, n-1` in list order. -/
def chainMachine (n : Nat) : running_machine :=
  { devicelist := (List.range n).map (fun i => mkDevice i i (toString i))
    memRegion := fun _ => none
    memRegionLength := fun _ => 0 }

/-- Scenario for the circular-dependency claim: every start call reports
deferred, never `DEVICE_START_OK`. -/
def deferTi : device_type → deviceinfo_fns := fun _ =>
  { token_bytes := 1, inline_config_bytes := 0, dclass := 0, has_set_info := false,
    start := fun _ _ => false }

/-- The mutually-deferring two-device machine. -/
def deferMachine : running_machine :=
  { devicelist := [mkDevice 0 0 "a", mkDevice 1 1 "b"]
    memRegion := fun _ => none
    memRegionLength := fun _ => 0 }

/-- Scenario where every start call immediately succeeds. -/
def okTi : device_type → deviceinfo_fns := fun _ =>
  { token_bytes := 4, inline_config_bytes := 0, dclass := 0, has_set_info := false,
    start := fun _ _ => true }

/-- A one-device machine for the lifecycle witnesses. -/
def oneMachine : running_machine :=
  { devicelist := [mkDevice 0 0 "main"]
    memRegion := fun _ => none
    memRegionLength := fun _ => 0 }

/-- The state `oneMachine` reaches after a successful `device_list_start`
under `okTi`. -/
def oneStartedMachine : running_machine :=
  { devicelist := [{ mkDevice 0 0 "main" with
      started := true, token := some 4, tokenbytes := 4, machine := true }]
    memRegion := fun _ => none
    memRegionLength := fun _ => 0 }

/-- Operation sequence for the traversal-order witness: types `1, 1, 2` added
in that order, then the first type-1 device removed. -/
def c6Ops : List DevOp :=
  [DevOp.addOp 1 "a" 0, DevOp.addOp 1 "b" 0, DevOp.addOp 2 "c" 0,
    DevOp.removeOp 1 "a"]

/-- The registry state `c6Ops` produces from the empty registry. -/
def c6State : device_list_state :=
  { devices := [mkDevice 1 1 "b", mkDevice 2 2 "c"], nextid := 3 }

/-- The record produced by adding `(type 0, "main")` to the empty registry when
the malloc residue in the `tokenbytes` slot happens to be `7`. -/
def c2AddedDev : device_config := { mkDevice 0 0 "main" with tokenbytes := 7 }

/-! ### Tag resolver -/

theorem lastColonIdx_of_not_mem {l : List Char} (h : ':' ∉ l) :
    lastColonIdx l = none := by
  induction l with
  | nil => rfl
  | cons c rest ih =>
    simp only [List.mem_cons, not_or] at h
    simp [lastColonIdx, ih h.2, h.1, Ne.symm h.1]

theorem lastColonIdx_append_colon (pre suf : List Char) (h : ':' ∉ suf) :
    lastColonIdx (pre ++ ':' :: suf) = some pre.length := by
  induction pre with
  | nil => simp [lastColonIdx, lastColonIdx_of_not_mem h]
  | cons c pre ih => simp [lastColonIdx, ih]

/-- C8: `device_build_tag` concatenates `parent.tag ++ ":" ++ child` when a
parent is given and returns the child tag unchanged otherwise;
`device_inherit_tag` keeps the source tag up to and including its last `:` and
appends the new tag, or returns the new tag unchanged when the source has no
`:`; in particular `build_tag("sound","dac") = "sound:dac"`,
`inherit_tag("sound:fm","dac") = "sound:dac"` and
`inherit_tag("dac","pan") = "pan"`.  Both are pure `String → String`
functions of their inputs. -/
theorem c8_tag_resolver :
    (∀ (d : device_config) (tag : String),
        device_build_tag (some d) tag = d.tag ++ ":" ++ tag) ∧
    (∀ tag : String, device_build_tag none tag = tag) ∧
    (∀ (pre suf : List Char) (tag : String), ':' ∉ suf →
        device_inherit_tag (String.mk (pre ++ ':' :: suf)) tag =
          String.mk (pre ++ [':']) ++ tag) ∧
    (∀ (s tag : String), ':' ∉ s.toList → device_inherit_tag s tag = tag) ∧
    device_build_tag (some (mkDevice 0 0 "sound")) "dac" = "sound:dac" ∧
    device_build_tag none "dac" = "dac" ∧
    device_inherit_tag "sound:fm" "dac" = "sound:dac" ∧
    device_inherit_tag "dac" "pan" = "pan" := by
  refine ⟨fun d tag => rfl, fun tag => rfl, ?_, ?_, by decide, rfl, by decide, by decide⟩
  · intro pre suf tag h
    have hidx : lastColonIdx (String.mk (pre ++ ':' :: suf)).toList = some pre.length :=
      lastColonIdx_append_colon pre suf h
    simp only [device_inherit_tag, hidx]
    congr 1
    show String.mk ((pre ++ ':' :: suf).take (pre.length + 1)) = String.mk (pre ++ [':'])
    congr 1
    rw [show pre.length + 1 = pre.length + 1 from rfl, List.take_append]
    simp
  · intro s tag h
    have h2 : lastColonIdx s.data = none := lastColonIdx_of_not_mem h
    simp [device_inherit_tag, String.toList, h2]

/-- Witness for C8 at a concrete split source tag. -/
theorem c8_tag_resolver_witness :
    (':' ∉ ['f', 'm']) ∧
    device_inherit_tag (String.mk (['s', 'o', 'u', 'n', 'd'] ++ ':' :: ['f', 'm'])) "dac" =
      String.mk (['s', 'o', 'u', 'n', 'd'] ++ [':']) ++ "dac" :=
  ⟨by decide, c8_tag_resolver.2.2.1 ['s', 'o', 'u', 'n', 'd'] ['f', 'm'] "dac" (by decide)⟩

/-! ### Scratch string pool -/

/-- C9: `get_temp_string_buffer` hands out the pool buffers in round-robin
order (`index % 16`), pre-cleared to the empty string, advancing the cursor;
consequently over 17 sequential acquisitions from the initial state the slots
are `0,1,…,15,0`: acquisition 1 and acquisition 17 return (and the 17th
re-clears) the same buffer, while acquisitions 2…17 return 16 pairwise distinct
buffers. -/
theorem c9_scratch_pool :
    (∀ s : temp_string_state, s.pool.length = TEMP_STRING_POOL_ENTRIES →
        (get_temp_string_buffer s).1 = s.index % TEMP_STRING_POOL_ENTRIES ∧
        (get_temp_string_buffer s).2.index = s.index + 1 ∧
        (get_temp_string_buffer s).2.pool[(get_temp_string_buffer s).1]? = some "") ∧
    (acquireN 17 initial_temp_string_state).1 =
      [0, 1, 2, 3, 4, 5, 6, 7, 8, 9, 10, 11, 12, 13, 14, 15, 0] ∧
    (acquireN 17 initial_temp_string_state).1[0]? =
      (acquireN 17 initial_temp_string_state).1[16]? ∧
    ((acquireN 17 initial_temp_string_state).1.drop 1).Nodup := by
  refine ⟨?_, by decide, by decide, by decide⟩
  intro s hlen
  refine ⟨rfl, rfl, ?_⟩
  have hlt : s.index % TEMP_STRING_POOL_ENTRIES < s.pool.length := by
    rw [hlen]
    exact Nat.mod_lt _ (by decide)
  simp [get_temp_string_buffer, List.getElem?_set_self hlt]

/-- Witness for C9 at the initial pool state. -/
theorem c9_scratch_pool_witness :
    initial_temp_string_state.pool.length = TEMP_STRING_POOL_ENTRIES ∧
    ((get_temp_string_buffer initial_temp_string_state).1 =
        initial_temp_string_state.index % TEMP_STRING_POOL_ENTRIES ∧
      (get_temp_string_buffer initial_temp_string_state).2.index =
        initial_temp_string_state.index + 1 ∧
      (get_temp_string_buffer
          initial_temp_string_state).2.pool[(get_temp_string_buffer
            initial_temp_string_state).1]? = some "") :=
  ⟨by decide, c9_scratch_pool.1 initial_temp_string_state (by decide)⟩

/-! ### Duplicate registration -/

/-- C5: adding a `(type, tag)` pair that is already present fails with the
fatal duplicate-device error; the duplicate is detected during the scan to the
end of the chain, before any record is allocated or linked, so in this pure
embedding no new state is produced at all and the untouched registry keeps
every previously added device reachable by tag lookup. -/
theorem c5_duplicate_add (ti : device_type → deviceinfo_fns)
    (s : device_list_state) (type : device_type) (tag : String) (junk : Nat)
    (hdup : ∃ d ∈ s.devices, d.type = type ∧ d.tag = tag) :
    device_list_add ti s type tag junk = .error (.duplicateDevice type tag) ∧
    ∀ d ∈ s.devices, device_list_find_by_tag s.devices (some d.type) d.tag ≠ none := by
  constructor
  · obtain ⟨d, hd, hty, htag⟩ := hdup
    have hany : s.devices.any (fun d => d.type == type && d.tag == tag) = true := by
      rw [List.any_eq_true]
      exact ⟨d, hd, by simp [hty, htag]⟩
    simp [device_list_add, hany]
  · intro d hd hnone
    rw [device_list_find_by_tag, List.find?_eq_none] at hnone
    exact hnone d hd (by simp [device_matches_type])

/-- Witness for C5: a registry holding `(type 3, "x")` rejects a second add of
the same pair. -/
theorem c5_duplicate_add_witness :
    (∃ d ∈ ({ devices := [mkDevice 0 3 "x"], nextid := 1 } : device_list_state).devices,
        d.type = 3 ∧ d.tag = "x") ∧
    (device_list_add okTi { devices := [mkDevice 0 3 "x"], nextid := 1 } 3 "x" 0 =
        .error (.duplicateDevice 3 "x") ∧
      ∀ d ∈ ({ devices := [mkDevice 0 3 "x"], nextid := 1 } : device_list_state).devices,
        device_list_find_by_tag ({ devices := [mkDevice 0 3 "x"], nextid := 1 } :
            device_list_state).devices (some d.type) d.tag ≠ none) :=
  ⟨by decide, c5_duplicate_add okTi { devices := [mkDevice 0 3 "x"], nextid := 1 } 3 "x" 0
    (by decide)⟩

/-! ### Empty start -/

/-- C10: starting a machine with an empty device list terminates normally with
no error and zero sweeps: `devcount` stays `0`, the convergence loop guard
`numstarted < devcount` is false immediately, and the circular-dependency
fatal error inside the loop is never reached. -/
theorem c10_empty_start (ti : device_type → deviceinfo_fns)
    (mr : String → Option Nat) (mrl : String → Nat) :
    device_list_start ti
        { devicelist := [], memRegion := mr, memRegionLength := mrl } =
      .ok ({ devicelist := [], memRegion := mr, memRegionLength := mrl }, 0) := by
  rw [device_list_start]
  simp only [allocDevices]
  rw [startLoop.eq_def]
  norm_num [countStarted]

/-! ### Lifecycle helpers -/

/-- The allocation pass succeeds and acts pointwise when no device declares a
zero-length token. -/
theorem allocDevices_eq (ti : device_type → deviceinfo_fns) (m : running_machine) :
    ∀ l : List device_config, (∀ d ∈ l, (ti d.type).token_bytes ≠ 0) →
      allocDevices ti m l = .ok (l.map (fun d =>
        { d with token := some (ti d.type).token_bytes
                 tokenbytes := (ti d.type).token_bytes
                 machine := true
                 region := m.memRegion d.tag
                 regionbytes := m.memRegionLength d.tag })) := by
  intro l
  induction l with
  | nil => intro _; rfl
  | cons d rest ih =>
    intro h
    have hd : (ti d.type).token_bytes ≠ 0 := h d (List.mem_cons_self d rest)
    rw [allocDevices, allocDevice, if_neg hd, ih (fun e he => h e (List.mem_cons_of_mem d he))]
    simp

/-- A sweep over devices whose start functions always defer changes nothing. -/
theorem sweepGo_id (ti : device_type → deviceinfo_fns) :
    ∀ (rest pre : List device_config),
      (∀ d ∈ rest, ∀ x ls, (ti d.type).start x ls = false) →
      sweepGo ti pre rest = pre ++ rest := by
  intro rest
  induction rest with
  | nil => intro pre _; simp [sweepGo]
  | cons d rest ih =>
    intro pre h
    have hd : (ti d.type).start d (pre ++ d :: rest) = false :=
      h d (List.mem_cons_self d rest) d (pre ++ d :: rest)
    have hd1 : (if d.started then d
        else if (ti d.type).start d (pre ++ d :: rest) then { d with started := true }
        else d) = d := by
      rw [hd]; simp
    rw [sweepGo, hd1, ih (pre ++ [d]) (fun e he => h e (List.mem_cons_of_mem d he))]
    simp

/-- A sweep preserves the number of devices. -/
theorem sweepGo_length (ti : device_type → deviceinfo_fns) :
    ∀ (rest pre : List device_config),
      (sweepGo ti pre rest).length = pre.length + rest.length := by
  intro rest
  induction rest with
  | nil => intro pre; simp [sweepGo]
  | cons d rest ih =>
    intro pre
    rw [sweepGo, ih]
    simp
    omega

/-- After `device_list_stop` every runtime field is null/zero. -/
theorem stop_fields_null : ∀ l : List device_config,
    ∀ d ∈ (device_list_stop l).1, runtime_fields_null d := by
  intro l
  induction l with
  | nil => intro d hd; simp [device_list_stop] at hd
  | cons e rest ih =>
    intro d hd
    rw [device_list_stop] at hd
    rcases List.mem_cons.1 hd with h | h
    · subst h
      exact ⟨rfl, rfl, rfl, rfl, rfl⟩
    · exact ih d h

/-- Stopping an already-stopped list changes nothing and performs no `free`:
every token is already null, so the guard `device->token != NULL` blocks every
free call. -/
theorem stop_idempotent : ∀ l : List device_config,
    device_list_stop (device_list_stop l).1 = ((device_list_stop l).1, 0) := by
  intro l
  induction l with
  | nil => rfl
  | cons d rest ih =>
    have h1 : stopDevice (stopDevice d) = stopDevice d := rfl
    have h2 : (stopDevice d).token.isSome = false := rfl
    show device_list_stop (stopDevice d :: (device_list_stop rest).1) =
      (stopDevice d :: (device_list_stop rest).1, 0)
    rw [device_list_stop, ih, h1, h2]
    simp

/-- Unfold `device_list_start` past a successful allocation pass. -/
theorem device_list_start_loop_error (ti : device_type → deviceinfo_fns)
    (m : running_machine) (devs : List device_config) (e : Fatal)
    (h1 : allocDevices ti m m.devicelist = .ok devs)
    (h2 : startLoop ti devs.length devs 0 = .error e) :
    device_list_start ti m = .error e := by
  rw [device_list_start, h1]
  show (match startLoop ti devs.length devs 0 with
        | .error e => .error e
        | .ok r => .ok ({ m with devicelist := r.1 }, r.2)) = Except.error e
  rw [h2]

/-- Unfold `device_list_start` past allocation and a converged loop. -/
theorem device_list_start_loop_ok (ti : device_type → deviceinfo_fns)
    (m : running_machine) (devs : List device_config)
    (r : List device_config × Nat)
    (h1 : allocDevices ti m m.devicelist = .ok devs)
    (h2 : startLoop ti devs.length devs 0 = .ok r) :
    device_list_start ti m = .ok ({ m with devicelist := r.1 }, r.2) := by
  rw [device_list_start, h1]
  show (match startLoop ti devs.length devs 0 with
        | .error e => .error e
        | .ok r => .ok ({ m with devicelist := r.1 }, r.2)) =
    Except.ok ({ m with devicelist := r.1 }, r.2)
  rw [h2]

/-! ### Circular dependency termination (C1) -/

/-- C1: on a machine with at least one device, none of them pre-started, all
token sizes legal, and every start call reporting deferred, `device_list_start`
terminates (it is a total function of the model, its loop measure being the
number of unstarted devices) and returns the fatal circular-dependency report
naming all `n` of the `n` devices as unstarted. -/
theorem c1_all_deferred_fatal (ti : device_type → deviceinfo_fns)
    (m : running_machine) (hne : m.devicelist ≠ [])
    (hunstarted : ∀ d ∈ m.devicelist, d.started = false)
    (htok : ∀ d ∈ m.devicelist, (ti d.type).token_bytes ≠ 0)
    (hdefer : ∀ d ∈ m.devicelist, ∀ x ls, (ti d.type).start x ls = false) :
    device_list_start ti m =
      .error (.circularDependency m.devicelist.length m.devicelist.length) := by
  set L := m.devicelist.map (fun d =>
    { d with token := some (ti d.type).token_bytes
             tokenbytes := (ti d.type).token_bytes
             machine := true
             region := m.memRegion d.tag
             regionbytes := m.memRegionLength d.tag }) with hL
  have hmem : ∀ d ∈ L, ∃ d0 ∈ m.devicelist, d.started = d0.started ∧ d.type = d0.type := by
    intro d hd
    rw [hL, List.mem_map] at hd
    obtain ⟨d0, hd0, rfl⟩ := hd
    exact ⟨d0, hd0, rfl, rfl⟩
  have hzero : countStarted L = 0 := by
    rw [countStarted, List.countP_eq_zero]
    intro d hd
    obtain ⟨d0, hd0, hs, _⟩ := hmem d hd
    simp [hs, hunstarted d0 hd0]
  have hdefer2 : ∀ d ∈ L, ∀ x ls, (ti d.type).start x ls = false := by
    intro d hd
    obtain ⟨d0, hd0, _, hty⟩ := hmem d hd
    rw [hty]
    exact hdefer d0 hd0
  have hlen : L.length = m.devicelist.length := by rw [hL, List.length_map]
  have hpos : 0 < L.length := by
    rw [hlen, List.length_pos]
    exact hne
  have hsweep : sweepGo ti [] L = L := by
    rw [sweepGo_id ti L [] hdefer2, List.nil_append]
  have halloc : allocDevices ti m m.devicelist = .ok L := by
    rw [allocDevices_eq ti m m.devicelist htok, hL]
  have hloop : startLoop ti L.length L 0 =
      .error (.circularDependency m.devicelist.length m.devicelist.length) := by
    rw [startLoop.eq_def, dif_pos (by rw [hzero]; exact hpos)]
    rw [dif_pos (by rw [hsweep]), hsweep, hzero, hlen]
    simp
  exact device_list_start_loop_error ti m L _ halloc hloop

/-- Witness for C1: the two always-deferring devices fail as `2` of `2`. -/
theorem c1_all_deferred_fatal_witness :
    (deferMachine.devicelist ≠ [] ∧
      (∀ d ∈ deferMachine.devicelist, d.started = false) ∧
      (∀ d ∈ deferMachine.devicelist, (deferTi d.type).token_bytes ≠ 0) ∧
      (∀ d ∈ deferMachine.devicelist, ∀ x ls, (deferTi d.type).start x ls = false)) ∧
    device_list_start deferTi deferMachine = .error (.circularDependency 2 2) :=
  ⟨⟨by decide, by decide, by decide, fun d _ x ls => rfl⟩,
    c1_all_deferred_fatal deferTi deferMachine (by decide) (by decide) (by decide)
      (fun d _ x ls => rfl)⟩

/-! ### Dependency chain convergence (C3) -/

/-- One sweep of the start loop already starts every device of the chain
machine: the sweep updates `started` flags in place, so when device `i` is
visited, device `i - 1` (earlier in the same sweep) is already started. -/
theorem chain_sweep : ∀ (rest pre : List device_config),
    (∀ d ∈ pre, d.started = true) →
    (∀ (j : Nat) (d : device_config), rest[j]? = some d → d.type = pre.length + j) →
    ∀ d ∈ sweepGo chainTi pre rest, d.started = true := by
  intro rest
  induction rest with
  | nil => intro pre hp _; simpa [sweepGo] using hp
  | cons d rest ih =>
    intro pre hp hidx
    have hty : d.type = pre.length := by
      have := hidx 0 d (by simp)
      simpa using this
    have hd1 : (if d.started then d
        else if (chainTi d.type).start d (pre ++ d :: rest) then { d with started := true }
        else d).started = true := by
      by_cases hs : d.started
      · simp [hs]
      · have hstart : (chainTi d.type).start d (pre ++ d :: rest) = true := by
          rw [hty]
          simp only [chainTi]
          by_cases hp0 : pre.length = 0
          · simp [hp0]
          · rw [if_neg hp0]
            have hlt : pre.length - 1 < pre.length := by omega
            have hget : (pre ++ d :: rest)[pre.length - 1]? = some (pre.get ⟨pre.length - 1, hlt⟩) := by
              rw [List.getElem?_append_left hlt]
              simp [List.getElem?_eq_getElem hlt]
            rw [hget]
            exact hp _ (List.get_mem pre _ hlt)
        simp [hs, hstart]
    rw [sweepGo]
    apply ih
    · intro e he
      rcases List.mem_append.1 he with h | h
      · exact hp e h
      · rw [List.mem_singleton] at h
        rw [h]
        exact hd1
    · intro j e hj
      have h2 := hidx (j + 1) e (by simpa using hj)
      rw [h2]
      simp only [List.length_append, List.length_cons, List.length_nil]
      ring

/-- Counterexample to C3 as stated: for the two-device chain (device 1's start
succeeds exactly when device 0 is started), `device_list_start` converges after
`1` sweep, not after `N = 2` sweeps, because the in-order sweep starts device 0
and device 1 then already observes the updated flag within the same sweep. -/
theorem c3_chain_counterexample :
    (device_list_start chainTi (chainMachine 2)).map (fun p => p.2) = .ok 1 ∧
    (1 : Nat) ≠ 2 := by
  constructor
  · rw [device_list_start]
    norm_num [allocDevices, allocDevice, chainMachine, chainTi, mkDevice,
      List.range, List.range.loop]
    rw [startLoop.eq_def]
    norm_num [countStarted, sweepGo, chainTi, mkDevice]
    rw [startLoop.eq_def]
    norm_num [countStarted, sweepGo]
    rfl
  · decide

/-- C3 (amended): for every `N ≥ 1`, on the chain machine of `N` devices where
device `i`'s start succeeds exactly when device `i - 1` is already started
(device 0 always succeeds), `device_list_start` converges in exactly `1` sweep
of the while loop — not `N` — and at termination all `N` devices are STARTED:
the sweep visits devices in list order and sets each `started` flag
immediately, so each device finds its predecessor already started within the
first sweep. -/
theorem c3_chain_converges (N : Nat) (hN : 1 ≤ N) :
    ∃ m2 : running_machine,
      device_list_start chainTi (chainMachine N) = .ok (m2, 1) ∧
      ∀ d ∈ m2.devicelist, d.started = true := by
  have htok : ∀ d ∈ (chainMachine N).devicelist, (chainTi d.type).token_bytes ≠ 0 := by
    intro d _
    simp [chainTi]
  have halloc := allocDevices_eq chainTi (chainMachine N) (chainMachine N).devicelist htok
  set L := (chainMachine N).devicelist.map (fun d =>
    { d with token := some (chainTi d.type).token_bytes
             tokenbytes := (chainTi d.type).token_bytes
             machine := true
             region := (chainMachine N).memRegion d.tag
             regionbytes := (chainMachine N).memRegionLength d.tag }) with hL
  have hlen : L.length = N := by
    rw [hL]
    simp [chainMachine]
  have hidx : ∀ (j : Nat) (d : device_config), L[j]? = some d → d.type = j := by
    intro j d hj
    have hjN : j < N := by
      rcases Nat.lt_or_ge j L.length with hlt | hge
      · rw [hlen] at hlt; exact hlt
      · rw [List.getElem?_eq_none hge] at hj; cases hj
    rw [hL] at hj
    simp only [chainMachine, List.map_map, List.getElem?_map,
      List.getElem?_range hjN] at hj
    rw [Option.map_some'] at hj
    injection hj with hj
    rw [← hj]
    simp [mkDevice]
  have hunstarted : ∀ d ∈ L, d.started = false := by
    intro d hd
    rw [hL] at hd
    simp only [chainMachine, List.map_map, List.mem_map] at hd
    obtain ⟨i, _, rfl⟩ := hd
    simp [mkDevice]
  have hzero : countStarted L = 0 := by
    rw [countStarted, List.countP_eq_zero]
    intro d hd
    simp [hunstarted d hd]
  have hall : ∀ d ∈ sweepGo chainTi [] L, d.started = true := by
    apply chain_sweep L []
    · intro d hd; cases hd
    · intro j d hj
      simpa using hidx j d hj
  have hswlen : (sweepGo chainTi [] L).length = N := by
    rw [sweepGo_length, hlen]
    simp
  have hcount : countStarted (sweepGo chainTi [] L) = N := by
    rw [countStarted]
    rw [← hswlen]
    rw [List.countP_eq_length]
    intro d hd
    simp [hall d hd]
  have hloop : startLoop chainTi L.length L 0 = .ok (sweepGo chainTi [] L, 1) := by
    rw [startLoop.eq_def, dif_pos (by rw [hzero, hlen]; omega)]
    rw [dif_neg (by rw [hcount, hzero]; omega)]
    rw [startLoop.eq_def, dif_neg (by rw [hcount, hlen]; omega)]
  refine ⟨{ chainMachine N with devicelist := sweepGo chainTi [] L }, ?_, ?_⟩
  · exact device_list_start_loop_ok chainTi (chainMachine N) L (sweepGo chainTi [] L, 1)
      (by rw [halloc, hL]) hloop
  · exact hall

/-- Witness for C3 (amended) at `N = 3`. -/
theorem c3_chain_converges_witness :
    1 ≤ 3 ∧ ∃ m2 : running_machine,
      device_list_start chainTi (chainMachine 3) = .ok (m2, 1) ∧
      ∀ d ∈ m2.devicelist, d.started = true :=
  ⟨by decide, c3_chain_converges 3 (by decide)⟩

/-! ### Runtime-field lifecycle (C2, C7) -/

/-- The allocation pass of `device_list_start` populates runtime fields (token
and machine back-reference) for every device it returns — before any device has
been started. -/
theorem allocDevices_populates (ti : device_type → deviceinfo_fns)
    (m : running_machine) :
    ∀ (l l2 : List device_config), allocDevices ti m l = .ok l2 →
      ∀ d ∈ l2, d.token ≠ none ∧ d.machine = true := by
  intro l
  induction l with
  | nil =>
    intro l2 h d hd
    rw [allocDevices] at h
    cases h
    cases hd
  | cons e rest ih =>
    intro l2 h d hd
    rw [allocDevices] at h
    rcases he : allocDevice ti m e with f1 | d1 <;> rw [he] at h
    · exact Except.noConfusion h
    · rcases hr : allocDevices ti m rest with f2 | rest1 <;> rw [hr] at h
      · exact Except.noConfusion h
      · have h2 : d1 :: rest1 = l2 := by injection h
        subst h2
        rcases List.mem_cons.1 hd with h3 | h3
        · subst h3
          simp only [allocDevice] at he
          split at he
          · exact Except.noConfusion he
          · injection he with h4
            rw [← h4]
            exact ⟨by simp, rfl⟩
        · exact ih rest1 hr d h3

/-- Counterexample to C2 as stated: after the allocation pass of
`device_list_start` (the "pre-start phase"), the sole device of `oneMachine`
has a non-null token while its `started` flag is still false — the runtime
fields are populated before the device reaches the STARTED state, contradicting
the claim that they are null at every point before the start call succeeds. -/
theorem c2_runtime_fields_counterexample :
    (allocDevices okTi oneMachine oneMachine.devicelist).map
        (fun l => l.map (fun d => (d.started, d.token.isSome))) =
      .ok [(false, true)] := rfl

/-- C2 (amended): immediately after `device_list_add` the token, machine
reference, region pointer and region length of the new record are null/zero
while the token-size field is simply whatever the malloc'd block held (Add
never assigns it; `device_list_start` writes it first); after
`device_list_stop` completes all five runtime fields are null/zero; during
`device_list_start` they are already populated by the pre-start allocation
pass, i.e. before the device transitions to STARTED, so "runtime fields
non-null" coincides with "between the allocation pass of StartAll and StopAll",
not with the STARTED state. -/
theorem c2_runtime_fields_lifecycle :
    (∀ (ti : device_type → deviceinfo_fns) (s : device_list_state)
        (type : device_type) (tag : String) (junk : Nat)
        (r : device_list_state × device_config),
        device_list_add ti s type tag junk = .ok r →
        r.2.started = false ∧ r.2.token = none ∧ r.2.machine = false ∧
          r.2.region = none ∧ r.2.regionbytes = 0 ∧ r.2.tokenbytes = junk) ∧
    (∀ l : List device_config, ∀ d ∈ (device_list_stop l).1, runtime_fields_null d) ∧
    (∀ (ti : device_type → deviceinfo_fns) (m : running_machine)
        (l : List device_config), allocDevices ti m m.devicelist = .ok l →
        ∀ d ∈ l, d.token ≠ none ∧ d.machine = true) := by
  refine ⟨?_, stop_fields_null, fun ti m l h => allocDevices_populates ti m _ l h⟩
  intro ti s type tag junk r h
  rw [device_list_add] at h
  split at h
  · cases h
  · cases h
    exact ⟨rfl, rfl, rfl, rfl, rfl, rfl⟩

/-- Witness for C2 (amended): adding to the empty registry with malloc residue
`7` in the token-size slot yields a record whose pointer fields are null, whose
started flag is clear, and whose token size is still that residue `7`. -/
theorem c2_runtime_fields_lifecycle_witness :
    device_list_add okTi emptyState 0 "main" 7 =
      .ok ({ devices := [c2AddedDev], nextid := 1 }, c2AddedDev) ∧
    (c2AddedDev.started = false ∧ c2AddedDev.token = none ∧
      c2AddedDev.machine = false ∧ c2AddedDev.region = none ∧
      c2AddedDev.regionbytes = 0 ∧ c2AddedDev.tokenbytes = 7) := by
  have h : device_list_add okTi emptyState 0 "main" 7 =
      .ok ({ devices := [c2AddedDev], nextid := 1 }, c2AddedDev) := by
    rfl
  exact ⟨h, c2_runtime_fields_lifecycle.1 okTi emptyState 0 "main" 7 _ h⟩

/-- C7: after a successful `device_list_start`, `device_list_stop` nulls every
device's runtime fields (token, tokenbytes, machine, region, regionbytes), and
a second `device_list_stop` performs zero `free` calls (each free is guarded on
`token != NULL`, and every token is already null) and leaves the already-nulled
fields unchanged — teardown is idempotent with respect to token release. -/
theorem c7_stop_idempotent (ti : device_type → deviceinfo_fns)
    (m m2 : running_machine) (sweeps : Nat)
    (h : device_list_start ti m = .ok (m2, sweeps)) :
    (∀ d ∈ (device_list_stop m2.devicelist).1, runtime_fields_null d) ∧
    device_list_stop (device_list_stop m2.devicelist).1 =
      ((device_list_stop m2.devicelist).1, 0) :=
  ⟨fun d hd => stop_fields_null m2.devicelist d hd, stop_idempotent m2.devicelist⟩

/-- Witness for C7: the started one-device machine, stopped twice. -/
theorem c7_stop_idempotent_witness :
    device_list_start okTi oneMachine = .ok (oneStartedMachine, 1) ∧
    ((∀ d ∈ (device_list_stop oneStartedMachine.devicelist).1, runtime_fields_null d) ∧
      device_list_stop (device_list_stop oneStartedMachine.devicelist).1 =
        ((device_list_stop oneStartedMachine.devicelist).1, 0)) := by
  have hp : device_list_start okTi oneMachine = .ok (oneStartedMachine, 1) := by
    rw [device_list_start]
    norm_num [allocDevices, allocDevice, oneMachine, okTi, mkDevice]
    rw [startLoop.eq_def]
    norm_num [countStarted, sweepGo, okTi]
    rw [startLoop.eq_def]
    norm_num [countStarted, sweepGo, oneStartedMachine, mkDevice]
  exact ⟨hp, c7_stop_idempotent okTi oneMachine oneStartedMachine 1 hp⟩

/-! ### Add / lookup round trips (C4) -/

/-- Re-linking a type chain touches only `typenext` fields: every record of the
result shares its type, tag and id with a record of the original list. -/
theorem addTypeLink_tags (l : List device_config) (T : device_type) (n : Nat) :
    ∀ d ∈ addTypeLink l T n,
      ∃ d0 ∈ l, d.type = d0.type ∧ d.tag = d0.tag ∧ d.devid = d0.devid := by
  intro d hd
  rw [addTypeLink] at hd
  split at hd
  · exact ⟨d, hd, rfl, rfl, rfl⟩
  · rw [setTypenextById, List.mem_map] at hd
    obtain ⟨d0, hd0, rfl⟩ := hd
    exact ⟨d0, hd0, by split <;> rfl, by split <;> rfl, by split <;> rfl⟩

/-- Type-filter matching is unchanged by `typenext` surgery. -/
theorem matches_setTypenext (d : device_config) (i : Nat) (v : Option Nat)
    (ty : Option device_type) :
    device_matches_type (if d.devid == i then { d with typenext := v } else d) ty =
      device_matches_type d ty := by
  cases ty <;> by_cases h : d.devid == i <;> simp [h, device_matches_type]

/-- The match count of any type filter is unchanged by the type-chain splice. -/
theorem addTypeLink_items (l : List device_config) (T : device_type) (n : Nat)
    (ty : Option device_type) :
    device_list_items (addTypeLink l T n) ty = device_list_items l ty := by
  rw [device_list_items, device_list_items, addTypeLink]
  split
  · rfl
  · rename_i lastid heq
    rw [setTypenextById, List.countP_map]
    apply List.countP_congr
    intro d _
    simp only [Function.comp_apply, matches_setTypenext]

/-- `device_list_index` walks past a block of non-matching-tag records counting
the type matches, then reports the counter at the first `(type, tag)` match. -/
theorem index_go_append (ty : Option device_type) (tag : String)
    (dev : device_config)
    (hdev : (device_matches_type dev ty && dev.tag == tag) = true) :
    ∀ (xs : List device_config) (k : Nat),
      (∀ d ∈ xs, (device_matches_type d ty && d.tag == tag) = false) →
      device_list_index_go ty tag (xs ++ [dev]) k =
        (k : Int) + (xs.countP (fun d => device_matches_type d ty) : Int) := by
  intro xs
  induction xs with
  | nil =>
    intro k _
    rw [Bool.and_eq_true] at hdev
    simp [device_list_index_go, hdev.1, hdev.2]
  | cons d xs ih =>
    intro k h
    have hd := h d (List.mem_cons_self d xs)
    rw [List.cons_append, device_list_index_go]
    by_cases h1 : device_matches_type d ty
    · have h2 : (d.tag == tag) = false := by
        rw [h1] at hd
        simpa using hd
      have hc : (d :: xs).countP (fun d => device_matches_type d ty) =
          xs.countP (fun d => device_matches_type d ty) + 1 := by
        rw [List.countP_cons]
        simp [h1]
      rw [if_pos h1, if_neg (by simp [h2]),
        ih (k + 1) (fun e he => h e (List.mem_cons_of_mem d he)), hc]
      push_cast
      ring
    · have hc : (d :: xs).countP (fun d => device_matches_type d ty) =
          xs.countP (fun d => device_matches_type d ty) := by
        rw [List.countP_cons]
        simp [h1]
      rw [if_neg h1, ih k (fun e he => h e (List.mem_cons_of_mem d he)), hc]

/-- `device_list_find_by_index` skips a prefix by subtracting its match count
from the index, provided the index does not land inside the prefix. -/
theorem find_by_index_skip (ty : Option device_type) :
    ∀ (xs ys : List device_config) (i : Int),
      ((xs.countP (fun d => device_matches_type d ty) : Int)) ≤ i →
      device_list_find_by_index (xs ++ ys) ty i =
        device_list_find_by_index ys ty
          (i - (xs.countP (fun d => device_matches_type d ty) : Int)) := by
  intro xs
  induction xs with
  | nil => intro ys i _; simp
  | cons d xs ih =>
    intro ys i hi
    rw [List.cons_append, device_list_find_by_index]
    by_cases h1 : device_matches_type d ty
    · have hc : (d :: xs).countP (fun d => device_matches_type d ty) =
          xs.countP (fun d => device_matches_type d ty) + 1 := by
        rw [List.countP_cons]
        simp [h1]
      rw [hc] at hi
      have hne : ¬ (i = 0) := by
        push_cast at hi
        omega
      have hi1 : (xs.countP (fun d => device_matches_type d ty) : Int) ≤ i - 1 := by
        push_cast at hi ⊢
        omega
      rw [if_pos h1, if_neg hne, ih ys (i - 1) hi1, hc]
      congr 1
      push_cast
      ring
    · have hc : (d :: xs).countP (fun d => device_matches_type d ty) =
          xs.countP (fun d => device_matches_type d ty) := by
        rw [List.countP_cons]
        simp [h1]
      rw [hc] at hi
      rw [if_neg h1, ih ys i hi, hc]

/-- A negative index never finds a device: the counter only moves away from
zero. -/
theorem find_by_index_neg (ty : Option device_type) :
    ∀ (l : List device_config) (i : Int), i < 0 →
      device_list_find_by_index l ty i = none := by
  intro l
  induction l with
  | nil => intro i _; rfl
  | cons d l ih =>
    intro i hi
    rw [device_list_find_by_index]
    by_cases h1 : device_matches_type d ty
    · rw [if_pos h1, if_neg (by omega)]
      exact ih (i - 1) (by omega)
    · rw [if_neg h1]
      exact ih i hi

/-- C4: on a registry without the `(type, tag)` pair, `device_list_add`
succeeds and returns the new record; `device_list_find_by_tag` with the same
concrete type and tag then returns exactly that record;
`device_list_index` of the new tag equals the number of type-matching entries
strictly before it in scan order (all the pre-existing matches of that type);
`device_list_find_by_index` applied to that index returns the same record; and
out-of-range indices (at or beyond the match count, or negative) return
not-found. -/
theorem c4_add_lookup_roundtrip (ti : device_type → deviceinfo_fns)
    (s : device_list_state) (type : device_type) (tag : String) (junk : Nat)
    (hnew : ∀ d ∈ s.devices, ¬(d.type = type ∧ d.tag = tag)) :
    ∃ (s2 : device_list_state) (dev : device_config),
      device_list_add ti s type tag junk = .ok (s2, dev) ∧
      device_list_find_by_tag s2.devices (some type) tag = some dev ∧
      device_list_index s2.devices (some type) tag =
        (device_list_items s.devices (some type) : Int) ∧
      device_list_find_by_index s2.devices (some type)
        (device_list_items s.devices (some type) : Int) = some dev ∧
      (∀ i : Int, (device_list_items s2.devices (some type) : Int) ≤ i →
        device_list_find_by_index s2.devices (some type) i = none) ∧
      (∀ i : Int, i < 0 →
        device_list_find_by_index s2.devices (some type) i = none) := by
  have hany : s.devices.any (fun d => d.type == type && d.tag == tag) = false := by
    rw [List.any_eq_false]
    intro d hd
    intro hcontra
    rw [Bool.and_eq_true, beq_iff_eq, beq_iff_eq] at hcontra
    exact hnew d hd ⟨hcontra.1, hcontra.2⟩
  set D := addedDevice ti s type tag junk with hD
  set L := addTypeLink s.devices type s.nextid with hL
  have hDmatch : (device_matches_type D (some type) && D.tag == tag) = true := by
    rw [hD]
    simp [device_matches_type, addedDevice]
  have hLno : ∀ d ∈ L, (device_matches_type d (some type) && d.tag == tag) = false := by
    intro d hd
    obtain ⟨d0, hd0, hty, htag, _⟩ := addTypeLink_tags s.devices type s.nextid d hd
    have h0 := hnew d0 hd0
    by_cases h1 : d.type = type
    · have h2 : ¬ d.tag = tag := fun h2 => h0 ⟨hty ▸ h1, htag ▸ h2⟩
      simp [device_matches_type, h2]
    · simp [device_matches_type, h1]
  have hLitems : L.countP (fun d => device_matches_type d (some type)) =
      device_list_items s.devices (some type) := by
    rw [hL]
    exact addTypeLink_items s.devices type s.nextid (some type)
  refine ⟨{ devices := L ++ [D], nextid := s.nextid + 1 }, D, ?_, ?_, ?_, ?_, ?_, ?_⟩
  · rw [device_list_add, if_neg (by simp [hany])]
  · rw [device_list_find_by_tag, List.find?_append]
    have h1 : L.find? (fun d => device_matches_type d (some type) && d.tag == tag) = none := by
      rw [List.find?_eq_none]
      intro d hd
      simp [hLno d hd]
    rw [h1]
    simp [List.find?, hDmatch]
  · rw [device_list_index]
    show device_list_index_go (some type) tag (L ++ [D]) 0 = _
    rw [index_go_append (some type) tag D hDmatch L 0 hLno, hLitems]
    simp
  · show device_list_find_by_index (L ++ [D]) (some type) _ = some D
    rw [find_by_index_skip (some type) L [D] _ (by rw [hLitems])]
    rw [hLitems, sub_self]
    rw [Bool.and_eq_true] at hDmatch
    simp [device_list_find_by_index, hDmatch.1]
  · intro i hi
    show device_list_find_by_index (L ++ [D]) (some type) i = none
    have hcount : ((L ++ [D]).countP (fun d => device_matches_type d (some type)) : Int) ≤ i := by
      exact_mod_cast hi
    have := find_by_index_skip (some type) (L ++ [D]) [] i hcount
    rw [List.append_nil] at this
    rw [this]
    rfl
  · intro i hi
    exact find_by_index_neg (some type) _ i hi

/-- Witness for C4: adding `(7, "snd")` next to an unrelated `(5, "other")`. -/
theorem c4_add_lookup_roundtrip_witness :
    (∀ d ∈ ({ devices := [mkDevice 0 5 "other"], nextid := 1 } :
        device_list_state).devices, ¬(d.type = 7 ∧ d.tag = "snd")) ∧
    (∃ (s2 : device_list_state) (dev : device_config),
      device_list_add okTi { devices := [mkDevice 0 5 "other"], nextid := 1 } 7 "snd" 0 =
        .ok (s2, dev) ∧
      device_list_find_by_tag s2.devices (some 7) "snd" = some dev ∧
      device_list_index s2.devices (some 7) "snd" =
        (device_list_items ({ devices := [mkDevice 0 5 "other"], nextid := 1 } :
          device_list_state).devices (some 7) : Int) ∧
      device_list_find_by_index s2.devices (some 7)
        (device_list_items ({ devices := [mkDevice 0 5 "other"], nextid := 1 } :
          device_list_state).devices (some 7) : Int) = some dev ∧
      (∀ i : Int, (device_list_items s2.devices (some 7) : Int) ≤ i →
        device_list_find_by_index s2.devices (some 7) i = none) ∧
      (∀ i : Int, i < 0 →
        device_list_find_by_index s2.devices (some 7) i = none)) :=
  ⟨by decide, c4_add_lookup_roundtrip okTi
    { devices := [mkDevice 0 5 "other"], nextid := 1 } 7 "snd" 0 (by decide)⟩

/-! ### Type-chain invariant: basic helpers (C6) -/

/-- Decompose a successful `find?` into the no-match prefix and the hit. -/
theorem find?_decomp {p : device_config → Bool} :
    ∀ {l : List device_config} {e : device_config}, l.find? p = some e →
      ∃ p1 p2, l = p1 ++ e :: p2 ∧ ∀ x ∈ p1, p x = false := by
  intro l
  induction l with
  | nil => intro e h; cases h
  | cons d rest ih =>
    intro e h
    cases hp : p d with
    | true =>
      rw [List.find?_cons_of_pos rest hp] at h
      cases h
      exact ⟨[], rest, rfl, by intro x hx; cases hx⟩
    | false =>
      rw [List.find?_cons_of_neg rest (by simp [hp])] at h
      obtain ⟨p1, p2, rfl, hno⟩ := ih h
      refine ⟨d :: p1, p2, rfl, ?_⟩
      intro x hx
      rcases List.mem_cons.1 hx with rfl | hx
      · exact hp
      · exact hno x hx

/-- `wfLinks` restricts to any suffix. -/
theorem wfLinks_append_right : ∀ (xs ys : List device_config),
    wfLinks (xs ++ ys) → wfLinks ys := by
  intro xs
  induction xs with
  | nil => intro ys h; exact h
  | cons d xs ih => intro ys h; exact ih ys h.2

/-- The `wfLinks` equation at an arbitrary position. -/
theorem wfLinks_middle {pre : List device_config} {d : device_config}
    {post : List device_config} (h : wfLinks (pre ++ d :: post)) :
    d.typenext = (post.find? (fun e => e.type == d.type)).map (fun e => e.devid) :=
  (wfLinks_append_right pre (d :: post) h).1

/-- With distinct ids, the id of a middle record occurs in neither side. -/
theorem ids_nodup_split {p1 : List device_config} {d : device_config}
    {p2 : List device_config} (h : (idsOf (p1 ++ d :: p2)).Nodup) :
    d.devid ∉ idsOf p1 ∧ d.devid ∉ idsOf p2 := by
  rw [idsOf, List.map_append, List.map_cons] at h
  rw [List.nodup_append] at h
  obtain ⟨h1, h2, h3⟩ := h
  constructor
  · intro hmem
    exact (h3 hmem (List.mem_cons_self _ _)).elim
  · exact (List.nodup_cons.1 h2).1

/-- With distinct ids, dereferencing a record's id finds that record. -/
theorem findById_at {l p1 p2 : List device_config} {d : device_config}
    (hnd : (idsOf l).Nodup) (hdec : l = p1 ++ d :: p2) :
    findById l d.devid = some d := by
  subst hdec
  obtain ⟨h1, _⟩ := ids_nodup_split hnd
  rw [findById, List.find?_append]
  have hp1 : p1.find? (fun e => e.devid == d.devid) = none := by
    rw [List.find?_eq_none]
    intro x hx
    simp only [beq_iff_eq]
    intro hxe
    exact h1 (hxe ▸ List.mem_map_of_mem (fun e => e.devid) hx)
  rw [hp1, List.find?_cons_of_pos _ (by simp)]
  rfl

/-- Two members of an id-nodup list with the same id are the same record. -/
theorem nodup_ids_inj {l : List device_config} (hnd : (idsOf l).Nodup)
    {a b : device_config} (ha : a ∈ l) (hb : b ∈ l) (hab : a.devid = b.devid) :
    a = b :=
  List.inj_on_of_nodup_map hnd ha hb hab

/-- `setTypenextById` on an absent id is the identity. -/
theorem setTypenextById_not_mem {l : List device_config} {i : Nat}
    (h : i ∉ idsOf l) (v : Option Nat) : setTypenextById l i v = l := by
  induction l with
  | nil => rfl
  | cons d rest ih =>
    have h1 : ¬ (i = d.devid) ∧ i ∉ idsOf rest := by
      rw [idsOf, List.map_cons, List.mem_cons, not_or] at h
      exact ⟨h.1, h.2⟩
    rw [setTypenextById, List.map_cons]
    have hd : (d.devid == i) = false := by
      simp only [beq_eq_false_iff_ne, ne_eq]
      exact fun he => h1.1 he.symm
    rw [hd]
    simp only [Bool.false_eq_true, if_false]
    have h2 := ih h1.2
    rw [setTypenextById] at h2
    rw [h2]

/-- `setTypenextById` never changes the ids. -/
theorem idsOf_setTypenextById (l : List device_config) (i : Nat) (v : Option Nat) :
    idsOf (setTypenextById l i v) = idsOf l := by
  rw [setTypenextById, idsOf, idsOf, List.map_map]
  apply List.map_congr_left
  intro d _
  show (if d.devid == i then { d with typenext := v } else d).devid = d.devid
  split <;> rfl

/-- `setTypenextById` distributes over append. -/
theorem setTypenextById_append (A B : List device_config) (i : Nat) (v : Option Nat) :
    setTypenextById (A ++ B) i v = setTypenextById A i v ++ setTypenextById B i v := by
  rw [setTypenextById, setTypenextById, setTypenextById, List.map_append]

/-- `find?` for a predicate blind to `typenext` commutes with the surgery. -/
theorem find?_setTypenextById (q : device_config → Bool)
    (hq : ∀ (d : device_config) (v : Option Nat), q { d with typenext := v } = q d)
    (l : List device_config) (i : Nat) (v : Option Nat) :
    (setTypenextById l i v).find? q =
      (l.find? q).map (fun d => if d.devid == i then { d with typenext := v } else d) := by
  rw [setTypenextById, List.find?_map]
  have hcomp : (q ∘ fun d => if d.devid == i then { d with typenext := v } else d) = q := by
    funext d
    by_cases h : (d.devid == i) <;> simp [Function.comp, h, hq]
  rw [hcomp]

/-- Id-level corollary: the surgery does not change which id `find?` returns. -/
theorem find?_setTypenextById_ids (q : device_config → Bool)
    (hq : ∀ (d : device_config) (v : Option Nat), q { d with typenext := v } = q d)
    (l : List device_config) (i : Nat) (v : Option Nat) :
    ((setTypenextById l i v).find? q).map (fun e => e.devid) =
      (l.find? q).map (fun e => e.devid) := by
  rw [find?_setTypenextById q hq l i v]
  cases l.find? q with
  | none => rfl
  | some e =>
    show some (((if e.devid == i then { e with typenext := v } else e) :
        device_config).devid) = some e.devid
    congr 1
    split <;> rfl

/-- `find?` skips a non-matching middle element. -/
theorem find?_skip_middle (q : device_config → Bool) {d : device_config}
    (hd : q d = false) (B A : List device_config) :
    (B ++ d :: A).find? q = (B ++ A).find? q := by
  rw [List.find?_append, List.find?_append, List.find?_cons_of_neg _ (by simp [hd])]

/-- Walking a chain head that is `NULL` visits nothing. -/
theorem chainFrom_none (l : List device_config) (f : Nat) :
    chainFrom l f none = [] := by
  cases f <;> rfl

/-- On a well-formed list, the `typenext` walk starting at any record visits
exactly the same-type records of the remaining suffix, in list order. -/
theorem chainFrom_suffix {l : List device_config} (hnd : (idsOf l).Nodup)
    (hwf : wfLinks l) :
    ∀ (fuel : Nat) (pre : List device_config) (d : device_config)
      (post : List device_config),
      l = pre ++ d :: post → (d :: post).length ≤ fuel →
      chainFrom l fuel (some d.devid) =
        idsOf ((d :: post).filter (fun e => e.type == d.type)) := by
  intro fuel
  induction fuel with
  | zero =>
    intro pre d post hdec hlen
    simp at hlen
  | succ f ih =>
    intro pre d post hdec hlen
    rw [chainFrom]
    have hmatch : (match findById l d.devid with
        | none => ([] : List Nat)
        | some d0 => chainFrom l f d0.typenext) = chainFrom l f d.typenext := by
      rw [findById_at hnd hdec]
    rw [hmatch]
    have htn : d.typenext =
        (post.find? (fun e => e.type == d.type)).map (fun e => e.devid) :=
      wfLinks_middle (hdec ▸ hwf)
    rw [htn]
    cases hf : post.find? (fun e => e.type == d.type) with
    | none =>
      have hfil : post.filter (fun e => e.type == d.type) = [] := by
        rw [List.filter_eq_nil_iff]
        intro a ha
        simpa using List.find?_eq_none.1 hf a ha
      rw [List.filter_cons_of_pos (by simp), hfil, Option.map_none', chainFrom_none]
      rfl
    | some e =>
      obtain ⟨q1, q2, hpost, hq1⟩ := find?_decomp hf
      have hety : e.type = d.type := by simpa using List.find?_some hf
      rw [Option.map_some']
      have hdec2 : l = (pre ++ d :: q1) ++ e :: q2 := by
        rw [hdec, hpost]
        simp
      have hlen2 : (e :: q2).length ≤ f := by
        rw [hpost] at hlen
        simp only [List.length_cons, List.length_append] at hlen ⊢
        omega
      rw [ih (pre ++ d :: q1) e q2 hdec2 hlen2]
      have hfe : (e :: q2).filter (fun x => x.type == e.type) =
          (e :: q2).filter (fun x => x.type == d.type) :=
        List.filter_congr (fun x _ => by rw [hety])
      have hq1f : q1.filter (fun x => x.type == d.type) = [] := by
        rw [List.filter_eq_nil_iff]
        intro a ha
        simp [hq1 a ha]
      have hR : (d :: post).filter (fun x => x.type == d.type) =
          d :: ((e :: q2).filter (fun x => x.type == d.type)) := by
        rw [hpost, List.filter_cons_of_pos (by simp), List.filter_append, hq1f,
          List.nil_append]
      rw [hR, hfe]
      rfl

/-- The full chain of a type, as the C traversal `device_list_first` +
`typenext` walks it, is the filtered global order. -/
theorem chain_eq_filter {l : List device_config} (hnd : (idsOf l).Nodup)
    (hwf : wfLinks l) (T : device_type) :
    chainFrom l l.length (firstOfTypeId l T) =
      idsOf (l.filter (fun e => e.type == T)) := by
  rw [firstOfTypeId, device_list_first,
    show (fun d => device_matches_type d (some T)) =
      (fun d : device_config => d.type == T) from funext fun d => rfl]
  cases hf : l.find? (fun e => e.type == T) with
  | none =>
    have hfil : l.filter (fun e => e.type == T) = [] := by
      rw [List.filter_eq_nil_iff]
      intro a ha
      simpa using List.find?_eq_none.1 hf a ha
    rw [hfil, Option.map_none', chainFrom_none]
    rfl
  | some d =>
    obtain ⟨q1, q2, hdec, hq1⟩ := find?_decomp hf
    have hdT : d.type = T := by simpa using List.find?_some hf
    rw [Option.map_some']
    rw [chainFrom_suffix hnd hwf l.length q1 d q2 hdec
      (by rw [hdec]; simp only [List.length_append, List.length_cons]; omega)]
    have hq1f : q1.filter (fun e => e.type == T) = [] := by
      rw [List.filter_eq_nil_iff]
      intro a ha
      simp [hq1 a ha]
    have hfe : (d :: q2).filter (fun e => e.type == d.type) =
        (d :: q2).filter (fun e => e.type == T) :=
      List.filter_congr (fun x _ => by rw [hdT])
    rw [hfe, hdec, List.filter_append, hq1f]
    rfl

/-- On a well-formed list, the fuelled walk of `device_list_add` lands exactly
on the last record of the type (the C pointer walk's final node). -/
theorem addTypeLink_eq {l : List device_config} (hnd : (idsOf l).Nodup)
    (hwf : wfLinks l) (T : device_type) (n : Nat) :
    addTypeLink l T n =
      match (l.filter (fun e => e.type == T)).getLast? with
      | none => l
      | some e => setTypenextById l e.devid (some n) := by
  rw [addTypeLink, chain_eq_filter hnd hwf T, idsOf, List.getLast?_map]
  cases hg : (l.filter (fun e => e.type == T)).getLast? with
  | none => rfl
  | some e => rfl

/-- `find?` over the spliced list, at the id level: appending the fresh record
and redirecting one `typenext` does not change which id a `typenext`-blind
predicate finds, provided the search either already succeeds or the new record
does not match. -/
theorem find?_set_append_ids (rest : List device_config) (i : Nat)
    (v : Option Nat) (dnew : device_config) (q : device_config → Bool)
    (hq : ∀ (d : device_config) (w : Option Nat), q { d with typenext := w } = q d)
    (hside : q dnew = false ∨ rest.find? q ≠ none) :
    ((setTypenextById rest i v ++ [dnew]).find? q).map (fun e => e.devid) =
      (rest.find? q).map (fun e => e.devid) := by
  rw [List.find?_append]
  cases hf : rest.find? q with
  | none =>
    have hnew : q dnew = false := by
      rcases hside with h | h
      · exact h
      · exact absurd hf h
    have h1 : (setTypenextById rest i v).find? q = none := by
      rw [find?_setTypenextById q hq, hf]
      rfl
    rw [h1, List.find?_cons_of_neg _ (by simp [hnew])]
    rfl
  | some e0 =>
    have h1 : (setTypenextById rest i v).find? q =
        some (if e0.devid == i then { e0 with typenext := v } else e0) := by
      rw [find?_setTypenextById q hq, hf]
      rfl
    rw [h1]
    show some (((if e0.devid == i then { e0 with typenext := v } else e0) :
        device_config).devid) = some e0.devid
    congr 1
    split <;> rfl

/-- Same as `find?_set_append_ids` with no `typenext` store at all. -/
theorem find?_append_dnew_ids (rest : List device_config)
    (dnew : device_config) (q : device_config → Bool)
    (hside : q dnew = false ∨ rest.find? q ≠ none) :
    ((rest ++ [dnew]).find? q).map (fun e => e.devid) =
      (rest.find? q).map (fun e => e.devid) := by
  rw [List.find?_append]
  cases hf : rest.find? q with
  | none =>
    have hnew : q dnew = false := by
      rcases hside with h | h
      · exact h
      · exact absurd hf h
    rw [List.find?_cons_of_neg _ (by simp [hnew])]
    rfl
  | some e0 => rfl

/-- Appending the fresh record preserves `wfLinks` when its type does not occur
in the list (the case where the C walk writes only a local variable). -/
theorem wfLinks_add_none (T : device_type) (dnew : device_config)
    (htyn : dnew.type = T) (htn : dnew.typenext = none) :
    ∀ l : List device_config, (∀ e ∈ l, (e.type == T) = false) → wfLinks l →
      wfLinks (l ++ [dnew]) := by
  intro l
  induction l with
  | nil =>
    intro _ _
    exact ⟨by simp [htn], trivial⟩
  | cons d rest ih =>
    intro hnoT hwf
    obtain ⟨hd, hrest⟩ := hwf
    rw [List.cons_append]
    refine ⟨?_, ih (fun e he => hnoT e (List.mem_cons_of_mem d he)) hrest⟩
    rw [hd]
    refine (find?_append_dnew_ids rest dnew (fun e => e.type == d.type) (Or.inl ?_)).symm
    have hdT := hnoT d (List.mem_cons_self d rest)
    simp only [beq_eq_false_iff_ne, ne_eq] at hdT ⊢
    rw [htyn]
    exact fun h => hdT h.symm

/-- Splicing the fresh record onto a nonempty type chain preserves `wfLinks`:
the last record of the type is redirected to the new id, every other link is
untouched, and the new record terminates the chain. -/
theorem wfLinks_add_some (T : device_type) (dnew : device_config)
    (htyn : dnew.type = T) (htn : dnew.typenext = none) :
    ∀ (l : List device_config) (p : device_config),
      (idsOf l).Nodup → dnew.devid ∉ idsOf l → wfLinks l →
      (l.filter (fun e => e.type == T)).getLast? = some p →
      wfLinks (setTypenextById l p.devid (some dnew.devid) ++ [dnew]) := by
  intro l
  induction l with
  | nil =>
    intro p _ _ _ hg
    exact Option.noConfusion hg
  | cons d rest ih =>
    intro p hnd hfresh hwf hg
    have hndr : (idsOf rest).Nodup := by
      rw [idsOf, List.map_cons, List.nodup_cons] at hnd
      exact hnd.2
    have hdnotin : d.devid ∉ idsOf rest := by
      rw [idsOf, List.map_cons, List.nodup_cons] at hnd
      exact hnd.1
    have hfreshr : dnew.devid ∉ idsOf rest := by
      rw [idsOf, List.map_cons, List.mem_cons, not_or] at hfresh
      exact hfresh.2
    obtain ⟨hd, hrest⟩ := hwf
    by_cases hdT : d.type = T
    · have hfil : (d :: rest).filter (fun e => e.type == T) =
          d :: rest.filter (fun e => e.type == T) :=
        List.filter_cons_of_pos (by simp [hdT])
      cases hrf : (rest.filter (fun e => e.type == T)).getLast? with
      | none =>
        have hrfil : rest.filter (fun e => e.type == T) = [] := by
          rwa [List.getLast?_eq_none_iff] at hrf
        have hpd : p = d := by
          rw [hfil, hrfil] at hg
          simpa using hg.symm
        subst hpd
        have hset : setTypenextById (p :: rest) p.devid (some dnew.devid) =
            { p with typenext := some dnew.devid } :: rest := by
          rw [setTypenextById, List.map_cons,
            show (p.devid == p.devid) = true from by simp]
          simp only [if_true]
          congr 1
          have h2 := setTypenextById_not_mem (l := rest) (i := p.devid) hdnotin
            (some dnew.devid)
          rw [setTypenextById] at h2
          exact h2
        rw [hset, List.cons_append]
        constructor
        · show some dnew.devid =
            ((rest ++ [dnew]).find? (fun e => e.type == p.type)).map (fun e => e.devid)
          have hfr : rest.find? (fun e => e.type == p.type) = none := by
            rw [List.find?_eq_none]
            intro x hx
            have h3 := List.filter_eq_nil_iff.1 hrfil x hx
            simp only [hdT]
            simpa using h3
          rw [List.find?_append, hfr,
            List.find?_cons_of_pos _ (by simp [htyn, hdT])]
          rfl
        · apply wfLinks_add_none T dnew htyn htn rest ?_ hrest
          intro e he
          simpa using List.filter_eq_nil_iff.1 hrfil e he
      | some q =>
        have hpq : p = q := by
          rw [hfil, List.getLast?_cons, hrf] at hg
          simpa using hg.symm
        subst hpq
        have hqfil : p ∈ rest.filter (fun e => e.type == T) :=
          List.mem_of_getLast?_eq_some hrf
        have hqmem : p ∈ rest := (List.mem_filter.1 hqfil).1
        have hqd : p.devid ≠ d.devid := by
          intro h
          exact hdnotin (h ▸ List.mem_map_of_mem (fun e => e.devid) hqmem)
        have hset : setTypenextById (d :: rest) p.devid (some dnew.devid) =
            d :: setTypenextById rest p.devid (some dnew.devid) := by
          rw [setTypenextById, List.map_cons,
            show (d.devid == p.devid) = false from by
              simp only [beq_eq_false_iff_ne, ne_eq]
              exact fun h => hqd h.symm]
          simp only [Bool.false_eq_true, if_false]
          rfl
        rw [hset, List.cons_append]
        constructor
        · rw [hd]
          refine (find?_set_append_ids rest p.devid (some dnew.devid) dnew
            (fun e => e.type == d.type) (fun _ _ => rfl) (Or.inr ?_)).symm
          intro hnone
          have h3 := List.find?_eq_none.1 hnone p hqmem
          have h4 : (p.type == T) = true := (List.mem_filter.1 hqfil).2
          rw [hdT] at h3
          exact h3 h4
        · exact ih p hndr hfreshr hrest hrf
    · have hfil2 : (d :: rest).filter (fun e => e.type == T) =
          rest.filter (fun e => e.type == T) :=
        List.filter_cons_of_neg (by simp [hdT])
      have hg2 : (rest.filter (fun e => e.type == T)).getLast? = some p := by
        rwa [hfil2] at hg
      have hpfil : p ∈ rest.filter (fun e => e.type == T) :=
        List.mem_of_getLast?_eq_some hg2
      have hpmem : p ∈ rest := (List.mem_filter.1 hpfil).1
      have hpd : p.devid ≠ d.devid := by
        intro h
        exact hdnotin (h ▸ List.mem_map_of_mem (fun e => e.devid) hpmem)
      have hset : setTypenextById (d :: rest) p.devid (some dnew.devid) =
          d :: setTypenextById rest p.devid (some dnew.devid) := by
        rw [setTypenextById, List.map_cons,
          show (d.devid == p.devid) = false from by
            simp only [beq_eq_false_iff_ne, ne_eq]
            exact fun h => hpd h.symm]
        simp only [Bool.false_eq_true, if_false]
        rfl
      rw [hset, List.cons_append]
      constructor
      · rw [hd]
        refine (find?_set_append_ids rest p.devid (some dnew.devid) dnew
          (fun e => e.type == d.type) (fun _ _ => rfl) (Or.inl ?_)).symm
        simp only [beq_eq_false_iff_ne, ne_eq, htyn]
        exact fun h => hdT h.symm
      · exact ih p hndr hfreshr hrest hg2

/-- `device_list_add` preserves the registry well-formedness: the new id is
fresh, the global order gains the record at the end, and the type-chain splice
keeps every `typenext` pointing at the next record of the same type. -/
theorem wf_add (ti : device_type → deviceinfo_fns) {s s2 : device_list_state}
    {type : device_type} {tag : String} {junk : Nat} {dev : device_config}
    (hwf : wfState s) (h : device_list_add ti s type tag junk = .ok (s2, dev)) :
    wfState s2 := by
  obtain ⟨hnd, hwl, hbound⟩ := hwf
  rw [device_list_add] at h
  split at h
  · cases h
  · cases h
    have hfreshid : (addedDevice ti s type tag junk).devid ∉ idsOf s.devices := by
      intro hmem
      rw [idsOf, List.mem_map] at hmem
      obtain ⟨d, hd, hdeq⟩ := hmem
      have hb := hbound d hd
      have : d.devid = s.nextid := hdeq
      omega
    refine ⟨?_, ?_, ?_⟩
    · show (idsOf (addTypeLink s.devices type s.nextid ++
        [addedDevice ti s type tag junk])).Nodup
      rw [idsOf, List.map_append]
      have hids : (addTypeLink s.devices type s.nextid).map (fun d => d.devid) =
          idsOf s.devices := by
        show idsOf (addTypeLink s.devices type s.nextid) = idsOf s.devices
        rw [addTypeLink]
        split
        · rfl
        · exact idsOf_setTypenextById s.devices _ _
      rw [hids]
      rw [List.nodup_append]
      refine ⟨hnd, List.nodup_singleton _, ?_⟩
      intro a ha hb
      simp only [List.map_cons, List.map_nil, List.mem_singleton] at hb
      subst hb
      exact hfreshid ha
    · show wfLinks (addTypeLink s.devices type s.nextid ++ [addedDevice ti s type tag junk])
      rw [addTypeLink_eq hnd hwl type s.nextid]
      cases hg : (s.devices.filter (fun e => e.type == type)).getLast? with
      | none =>
        show wfLinks (s.devices ++ [addedDevice ti s type tag junk])
        apply wfLinks_add_none type (addedDevice ti s type tag junk) rfl rfl s.devices ?_ hwl
        intro e he
        simpa using List.filter_eq_nil_iff.1 (List.getLast?_eq_none_iff.1 hg) e he
      | some e =>
        show wfLinks (setTypenextById s.devices e.devid (some s.nextid) ++
          [addedDevice ti s type tag junk])
        exact wfLinks_add_some type (addedDevice ti s type tag junk) rfl rfl s.devices e
          hnd hfreshid hwl hg
    · intro d hd
      rcases List.mem_append.1 hd with hmem | hmem
      · obtain ⟨d0, hd0, _, _, hdev⟩ := addTypeLink_tags s.devices type s.nextid d hmem
        have := hbound d0 hd0
        show d.devid < s.nextid + 1
        omega
      · rw [List.mem_singleton] at hmem
        subst hmem
        show s.nextid < s.nextid + 1
        omega

/-- One step of the unlink walk, with the current pointer resolved. -/
theorem typeUnlinkGo_step (l : List device_config) (targetid : Nat)
    (tnext : Option Nat) (cur : Nat) (f : Nat) (d : device_config)
    (hfind : findById l cur = some d) :
    typeUnlinkGo l targetid tnext cur (f + 1) =
      match d.typenext with
      | none => l
      | some j =>
        if j == targetid then setTypenextById l cur tnext
        else typeUnlinkGo l targetid tnext j f := by
  rw [typeUnlinkGo, hfind]

/-- On a well-formed list, the unlink walk started at a type-chain node `c`
lying before the target `t` ends at the last same-type record before `t` and
redirects exactly that record's `typenext`. -/
theorem typeUnlinkGo_spec {l : List device_config} (hnd : (idsOf l).Nodup)
    (hwf : wfLinks l) (tnext : Option Nat) (t : device_config) :
    ∀ (fuel : Nat) (q1 r1 r2 : List device_config) (c p : device_config),
      l = q1 ++ c :: (r1 ++ t :: r2) → c.type = t.type →
      (c :: (r1 ++ t :: r2)).length ≤ fuel →
      ((c :: r1).filter (fun e => e.type == t.type)).getLast? = some p →
      typeUnlinkGo l t.devid tnext c.devid fuel = setTypenextById l p.devid tnext := by
  intro fuel
  induction fuel with
  | zero =>
    intro q1 r1 r2 c p hdec hct hlen hp
    simp at hlen
  | succ f ih =>
    intro q1 r1 r2 c p hdec hct hlen hp
    rw [typeUnlinkGo_step l t.devid tnext c.devid f c (findById_at hnd hdec)]
    have hctn : c.typenext =
        ((r1 ++ t :: r2).find? (fun e => e.type == t.type)).map (fun e => e.devid) := by
      rw [wfLinks_middle (hdec ▸ hwf),
        show (fun e : device_config => e.type == c.type) =
          (fun e : device_config => e.type == t.type) from funext fun x => by rw [hct]]
    cases hf1 : r1.find? (fun e => e.type == t.type) with
    | none =>
      have hfr : (r1 ++ t :: r2).find? (fun e => e.type == t.type) = some t := by
        rw [List.find?_append, hf1, List.find?_cons_of_pos _ (by simp)]
        rfl
      have hctn2 : c.typenext = some t.devid := by rw [hctn, hfr]; rfl
      have hr1fil : r1.filter (fun e => e.type == t.type) = [] := by
        rw [List.filter_eq_nil_iff]
        intro a ha
        simpa using List.find?_eq_none.1 hf1 a ha
      have hpc : p = c := by
        rw [List.filter_cons_of_pos (by simp [hct]), hr1fil] at hp
        simpa using hp.symm
      rw [hctn2, hpc]
      show (if (t.devid == t.devid) = true then setTypenextById l c.devid tnext
            else typeUnlinkGo l t.devid tnext t.devid f) = setTypenextById l c.devid tnext
      rw [if_pos (by simp)]
    | some e =>
      obtain ⟨s1, s2, hr1, hs1⟩ := find?_decomp hf1
      have hety : e.type = t.type := by simpa using List.find?_some hf1
      have hfr : (r1 ++ t :: r2).find? (fun e => e.type == t.type) = some e := by
        rw [List.find?_append, hf1]
        rfl
      have hctn2 : c.typenext = some e.devid := by rw [hctn, hfr]; rfl
      have hdec2 : l = (q1 ++ c :: s1) ++ e :: (s2 ++ t :: r2) := by
        rw [hdec, hr1]
        simp
      have hne : (e.devid == t.devid) = false := by
        have h2 := (@ids_nodup_split (q1 ++ c :: s1) e (s2 ++ t :: r2)
          (hdec2 ▸ hnd)).2
        simp only [beq_eq_false_iff_ne, ne_eq]
        intro hcontra
        apply h2
        rw [hcontra, idsOf, List.map_append, List.map_cons]
        exact List.mem_append.2 (Or.inr (List.mem_cons_self _ _))
      rw [hctn2]
      show (if (e.devid == t.devid) = true then setTypenextById l c.devid tnext
            else typeUnlinkGo l t.devid tnext e.devid f) = setTypenextById l p.devid tnext
      rw [hne]
      simp only [Bool.false_eq_true, if_false]
      apply ih (q1 ++ c :: s1) s2 r2 e p hdec2 hety
      · rw [hr1] at hlen
        simp only [List.length_cons, List.length_append] at hlen ⊢
        omega
      · have hpfe : (c :: r1).filter (fun x => x.type == t.type) =
            c :: e :: s2.filter (fun x => x.type == t.type) := by
          rw [List.filter_cons_of_pos (by simp [hct]), hr1, List.filter_append,
            show s1.filter (fun x => x.type == t.type) = [] from
              List.filter_eq_nil_iff.2 (fun a ha => by simp [hs1 a ha]),
            List.filter_cons_of_pos (by simp [hety]), List.nil_append]
        rw [hpfe, List.getLast?_cons_cons] at hp
        rw [List.filter_cons_of_pos (by simp [hety])]
        exact hp

/-- `removeFirstMatch` drops exactly the first `(type, tag)` match. -/
theorem removeFirstMatch_eq (type : device_type) (tag : String) :
    ∀ (p1 p2 : List device_config) (d : device_config),
      (∀ e ∈ p1, (e.type == type && e.tag == tag) = false) →
      (d.type == type && d.tag == tag) = true →
      removeFirstMatch type tag (p1 ++ d :: p2) = p1 ++ p2 := by
  intro p1
  induction p1 with
  | nil =>
    intro p2 d _ hd
    rw [List.nil_append, removeFirstMatch, if_pos (by simp [hd])]
    rfl
  | cons e p1 ih =>
    intro p2 d h hd
    rw [List.cons_append, removeFirstMatch,
      if_neg (by simp [h e (List.mem_cons_self e p1)]),
      ih p2 d (fun x hx => h x (List.mem_cons_of_mem e hx)) hd]
    rfl

/-- The `typenext` surgery preserves each record's type, tag and id. -/
theorem mem_setTypenextById (l : List device_config) (i : Nat) (v : Option Nat) :
    ∀ d ∈ setTypenextById l i v,
      ∃ d0 ∈ l, d.type = d0.type ∧ d.tag = d0.tag ∧ d.devid = d0.devid := by
  intro d hd
  rw [setTypenextById, List.mem_map] at hd
  obtain ⟨d0, hd0, rfl⟩ := hd
  exact ⟨d0, hd0, by split <;> rfl, by split <;> rfl, by split <;> rfl⟩

/-- At the id level, `find?` through a spliced prefix plus untouched suffix
agrees with `find?` through the original prefix plus suffix. -/
theorem find?_set_append_ids_eq (B A : List device_config) (i : Nat)
    (v : Option Nat) (q : device_config → Bool)
    (hq : ∀ (d : device_config) (w : Option Nat), q { d with typenext := w } = q d) :
    ((setTypenextById B i v ++ A).find? q).map (fun e => e.devid) =
      ((B ++ A).find? q).map (fun e => e.devid) := by
  rw [List.find?_append, List.find?_append, find?_setTypenextById q hq]
  cases hf : B.find? q with
  | none => rfl
  | some e0 =>
    show some (((if e0.devid == i then { e0 with typenext := v } else e0) :
        device_config).devid) = some e0.devid
    congr 1
    split <;> rfl

/-- `find?` over an append resolves in the left part when it succeeds there. -/
theorem find?_append_left_of_some {B : List device_config}
    {q : device_config → Bool} {e0 : device_config}
    (hf : B.find? q = some e0) (A : List device_config) :
    (B ++ A).find? q = some e0 := by
  rw [List.find?_append, hf]
  rfl

/-- Removing a record whose type occurs nowhere before it preserves the link
invariant: no `typenext` can point at it. -/
theorem wfLinks_remove_none {d : device_config} :
    ∀ (B A : List device_config),
      (∀ e ∈ B, (e.type == d.type) = false) → wfLinks (B ++ d :: A) →
      wfLinks (B ++ A) := by
  intro B
  induction B with
  | nil =>
    intro A _ hwf
    exact hwf.2
  | cons b B ih =>
    intro A hno hwf
    rw [List.cons_append] at hwf ⊢
    obtain ⟨hb, hrest⟩ := hwf
    refine ⟨?_, ih A (fun e he => hno e (List.mem_cons_of_mem b he)) hrest⟩
    rw [hb, find?_skip_middle _ ?_ B A]
    have h1 := hno b (List.mem_cons_self b B)
    simp only [beq_eq_false_iff_ne, ne_eq] at h1 ⊢
    exact fun h => h1 h.symm

/-- Removing a record whose type chain predecessor has been redirected past it
preserves the link invariant. -/
theorem wfLinks_remove_some {d : device_config} :
    ∀ (B A : List device_config) (p : device_config),
      (idsOf (B ++ d :: A)).Nodup → wfLinks (B ++ d :: A) →
      (B.filter (fun e => e.type == d.type)).getLast? = some p →
      wfLinks (setTypenextById B p.devid d.typenext ++ A) := by
  intro B
  induction B with
  | nil =>
    intro A p _ _ hg
    exact Option.noConfusion hg
  | cons b B ih =>
    intro A p hnd hwf hg
    rw [List.cons_append] at hwf hnd
    obtain ⟨hb, hrest⟩ := hwf
    have hndr : (idsOf (B ++ d :: A)).Nodup := by
      rw [idsOf, List.map_cons, List.nodup_cons] at hnd
      exact hnd.2
    have hbnotin : b.devid ∉ idsOf (B ++ d :: A) := by
      rw [idsOf, List.map_cons, List.nodup_cons] at hnd
      exact hnd.1
    by_cases hbT : b.type = d.type
    · have hfil : (b :: B).filter (fun e => e.type == d.type) =
          b :: B.filter (fun e => e.type == d.type) :=
        List.filter_cons_of_pos (by simp [hbT])
      cases hrf : (B.filter (fun e => e.type == d.type)).getLast? with
      | none =>
        have hrfil : B.filter (fun e => e.type == d.type) = [] := by
          rwa [List.getLast?_eq_none_iff] at hrf
        have hnoB : ∀ e ∈ B, (e.type == d.type) = false := by
          intro e he
          simpa using List.filter_eq_nil_iff.1 hrfil e he
        have hpb : p = b := by
          rw [hfil, hrfil] at hg
          simpa using hg.symm
        subst hpb
        have hbB : p.devid ∉ idsOf B := by
          intro h2
          apply hbnotin
          rw [idsOf, List.map_append]
          exact List.mem_append.2 (Or.inl h2)
        have hset : setTypenextById (p :: B) p.devid d.typenext =
            { p with typenext := d.typenext } :: B := by
          rw [setTypenextById, List.map_cons,
            show (p.devid == p.devid) = true from by simp]
          simp only [if_true]
          congr 1
          have h2 := setTypenextById_not_mem (l := B) (i := p.devid) hbB d.typenext
          rw [setTypenextById] at h2
          exact h2
        rw [hset, List.cons_append]
        constructor
        · show d.typenext =
            ((B ++ A).find? (fun e => e.type == p.type)).map (fun e => e.devid)
          have hdmid : d.typenext =
              (A.find? (fun e => e.type == d.type)).map (fun e => e.devid) :=
            @wfLinks_middle B d A hrest
          have hfB : B.find? (fun e => e.type == p.type) = none := by
            rw [List.find?_eq_none]
            intro x hx
            have := hnoB x hx
            simp only [hbT]
            simpa using this
          rw [List.find?_append, hfB, hdmid]
          rw [show (fun e : device_config => e.type == p.type) =
            (fun e : device_config => e.type == d.type) from funext fun x => by rw [hbT]]
          rfl
        · exact wfLinks_remove_none B A hnoB hrest
      | some q =>
        have hpq : p = q := by
          rw [hfil, List.getLast?_cons, hrf] at hg
          simpa using hg.symm
        subst hpq
        have hqfil : p ∈ B.filter (fun e => e.type == d.type) :=
          List.mem_of_getLast?_eq_some hrf
        have hqmem : p ∈ B := (List.mem_filter.1 hqfil).1
        have hqb : (b.devid == p.devid) = false := by
          simp only [beq_eq_false_iff_ne, ne_eq]
          intro h2
          apply hbnotin
          rw [h2, idsOf, List.map_append]
          exact List.mem_append.2 (Or.inl (List.mem_map_of_mem _ hqmem))
        have hset : setTypenextById (b :: B) p.devid d.typenext =
            b :: setTypenextById B p.devid d.typenext := by
          rw [setTypenextById, List.map_cons, hqb]
          simp only [Bool.false_eq_true, if_false]
          rfl
        rw [hset, List.cons_append]
        constructor
        · rw [hb]
          cases hf : B.find? (fun e => e.type == b.type) with
          | none =>
            have h3 := List.find?_eq_none.1 hf p hqmem
            rw [hbT] at h3
            exact absurd ((List.mem_filter.1 hqfil).2) h3
          | some e0 =>
            have hsB : (setTypenextById B p.devid d.typenext).find?
                (fun e => e.type == b.type) =
                some (if e0.devid == p.devid then { e0 with typenext := d.typenext }
                  else e0) := by
              rw [find?_setTypenextById (fun e => e.type == b.type)
                (fun _ _ => rfl), hf]
              rfl
            rw [find?_append_left_of_some hf (d :: A),
              find?_append_left_of_some hsB A]
            show some e0.devid =
              some (((if e0.devid == p.devid then { e0 with typenext := d.typenext }
                else e0) : device_config).devid)
            congr 1
            split <;> rfl
        · exact ih A p hndr hrest hrf
    · have hfil2 : (b :: B).filter (fun e => e.type == d.type) =
          B.filter (fun e => e.type == d.type) :=
        List.filter_cons_of_neg (by simp [hbT])
      have hg2 : (B.filter (fun e => e.type == d.type)).getLast? = some p := by
        rwa [hfil2] at hg
      have hpfil : p ∈ B.filter (fun e => e.type == d.type) :=
        List.mem_of_getLast?_eq_some hg2
      have hpmem : p ∈ B := (List.mem_filter.1 hpfil).1
      have hpb : (b.devid == p.devid) = false := by
        simp only [beq_eq_false_iff_ne, ne_eq]
        intro h2
        apply hbnotin
        rw [h2, idsOf, List.map_append]
        exact List.mem_append.2 (Or.inl (List.mem_map_of_mem _ hpmem))
      have hset : setTypenextById (b :: B) p.devid d.typenext =
          b :: setTypenextById B p.devid d.typenext := by
        rw [setTypenextById, List.map_cons, hpb]
        simp only [Bool.false_eq_true, if_false]
        rfl
      rw [hset, List.cons_append]
      constructor
      · rw [hb, find?_set_append_ids_eq B A p.devid d.typenext
          (fun e => e.type == b.type) (fun _ _ => rfl)]
        rw [find?_skip_middle (fun e => e.type == b.type) ?_ B A]
        simp only [beq_eq_false_iff_ne, ne_eq]
        exact fun h => hbT h.symm
      · exact ih A p hndr hrest hg2

/-- Dropping one record from an id-nodup list keeps the ids nodup. -/
theorem nodup_ids_drop {p1 p2 : List device_config} {d : device_config}
    (hnd : (idsOf (p1 ++ d :: p2)).Nodup) : (idsOf (p1 ++ p2)).Nodup := by
  have hsub : List.Sublist (idsOf (p1 ++ p2)) (idsOf (p1 ++ d :: p2)) := by
    rw [idsOf, idsOf, List.map_append, List.map_append, List.map_cons]
    exact List.Sublist.append_left (List.sublist_cons_self _ _) _
  exact hsub.nodup hnd

/-- `device_list_remove` preserves the registry well-formedness: the record is
unlinked from its type chain (its predecessor redirected past it) before it is
dropped from the global chain. -/
theorem wf_remove {s s2 : device_list_state} {type : device_type} {tag : String}
    (hwf : wfState s) (h : device_list_remove s type tag = .ok s2) :
    wfState s2 := by
  obtain ⟨hnd, hwl, hbound⟩ := hwf
  rw [device_list_remove] at h
  cases hfind : s.devices.find? (fun e => e.type == type && e.tag == tag) with
  | none =>
    rw [hfind] at h
    exact Except.noConfusion h
  | some d =>
    rw [hfind] at h
    have h2 := Except.ok.inj h
    subst h2
    have hmatch : (d.type == type && d.tag == tag) = true := by
      have h3 := List.find?_some hfind
      simpa using h3
    have htyeq : d.type = type := by
      rw [Bool.and_eq_true] at hmatch
      simpa using hmatch.1
    subst htyeq
    obtain ⟨p1, p2, hdec, hp1⟩ := find?_decomp hfind
    have hdp1 : d.devid ∉ idsOf p1 := (ids_nodup_split (hdec ▸ hnd)).1
    cases hfT : p1.find? (fun e => e.type == d.type) with
    | none =>
      have hnoT : ∀ e ∈ p1, (e.type == d.type) = false := by
        intro e he
        simpa using List.find?_eq_none.1 hfT e he
      have hfirst : s.devices.find? (fun e => device_matches_type e (some d.type)) =
          some d := by
        rw [show (fun e => device_matches_type e (some d.type)) =
          (fun e : device_config => e.type == d.type) from funext fun e => rfl]
        rw [hdec, List.find?_append, hfT, List.find?_cons_of_pos _ (by simp)]
        rfl
      have hul : typeUnlink s.devices d.type d = s.devices := by
        rw [typeUnlink, firstOfTypeId, device_list_first, hfirst]
        show (if (d.devid == d.devid) = true then s.devices
              else typeUnlinkGo s.devices d.devid d.typenext d.devid
                s.devices.length) = s.devices
        rw [if_pos (by simp)]
      have hrm : removeFirstMatch d.type tag (typeUnlink s.devices d.type d) =
          p1 ++ p2 := by
        rw [hul, hdec]
        exact removeFirstMatch_eq d.type tag p1 p2 d hp1 hmatch
      refine ⟨?_, ?_, ?_⟩
      · show (idsOf (removeFirstMatch d.type tag (typeUnlink s.devices d.type d))).Nodup
        rw [hrm]
        exact nodup_ids_drop (hdec ▸ hnd)
      · show wfLinks (removeFirstMatch d.type tag (typeUnlink s.devices d.type d))
        rw [hrm]
        exact wfLinks_remove_none p1 p2 hnoT (hdec ▸ hwl)
      · intro e he
        rw [hrm] at he
        apply hbound
        rw [hdec]
        rcases List.mem_append.1 he with h3 | h3
        · exact List.mem_append.2 (Or.inl h3)
        · exact List.mem_append.2 (Or.inr (List.mem_cons_of_mem d h3))
    | some f0 =>
      obtain ⟨u1, u2, hp1dec, hu1⟩ := find?_decomp hfT
      have hf0T : f0.type = d.type := by simpa using List.find?_some hfT
      have hf0mem : f0 ∈ p1 := by
        rw [hp1dec]
        exact List.mem_append.2 (Or.inr (List.mem_cons_self _ _))
      have hfirst : s.devices.find? (fun e => device_matches_type e (some d.type)) =
          some f0 := by
        rw [show (fun e => device_matches_type e (some d.type)) =
          (fun e : device_config => e.type == d.type) from funext fun e => rfl]
        rw [hdec]
        exact find?_append_left_of_some hfT (d :: p2)
      have hne0 : (f0.devid == d.devid) = false := by
        simp only [beq_eq_false_iff_ne, ne_eq]
        intro hc
        apply hdp1
        rw [← hc]
        exact List.mem_map_of_mem _ hf0mem
      have hdec2 : s.devices = u1 ++ f0 :: (u2 ++ d :: p2) := by
        rw [hdec, hp1dec]
        simp
      cases hgl : ((f0 :: u2).filter (fun e => e.type == d.type)).getLast? with
      | none =>
        exfalso
        rw [List.getLast?_eq_none_iff, List.filter_cons_of_pos (by simp [hf0T])] at hgl
        exact List.noConfusion hgl
      | some p =>
        have hulgo : typeUnlinkGo s.devices d.devid d.typenext f0.devid
            s.devices.length = setTypenextById s.devices p.devid d.typenext := by
          apply typeUnlinkGo_spec hnd hwl d.typenext d s.devices.length u1 u2 p2 f0 p
            hdec2 hf0T ?_ hgl
          rw [hdec2]
          simp only [List.length_append, List.length_cons]
          omega
        have hul : typeUnlink s.devices d.type d =
            setTypenextById s.devices p.devid d.typenext := by
          rw [typeUnlink, firstOfTypeId, device_list_first, hfirst]
          show (if (f0.devid == d.devid) = true then s.devices
                else typeUnlinkGo s.devices d.devid d.typenext f0.devid
                  s.devices.length) = _
          rw [hne0]
          simp only [Bool.false_eq_true, if_false]
          exact hulgo
        have hpmem1 : p ∈ p1 := by
          have h3 : p ∈ (f0 :: u2).filter (fun e => e.type == d.type) :=
            List.mem_of_getLast?_eq_some hgl
          rw [hp1dec]
          exact List.mem_append.2 (Or.inr ((List.mem_filter.1 h3).1))
        have hpnotd : p.devid ≠ d.devid := by
          intro hc
          exact hdp1 (hc ▸ List.mem_map_of_mem _ hpmem1)
        have hpnotp2 : p.devid ∉ idsOf p2 := by
          have h3 : (idsOf (p1 ++ d :: p2)).Nodup := hdec ▸ hnd
          rw [idsOf, List.map_append, List.nodup_append] at h3
          intro hc
          exact h3.2.2 (List.mem_map_of_mem _ hpmem1)
            (by rw [List.map_cons]; exact List.mem_cons_of_mem _ hc)
      -- distribute the surgery over the decomposition
        have hsetdist : setTypenextById s.devices p.devid d.typenext =
            setTypenextById p1 p.devid d.typenext ++ d :: p2 := by
          rw [hdec, setTypenextById_append]
          congr 1
          apply setTypenextById_not_mem
          rw [idsOf, List.map_cons, List.mem_cons, not_or]
          exact ⟨hpnotd, hpnotp2⟩
        have hglp1 : (p1.filter (fun e => e.type == d.type)).getLast? = some p := by
          rw [hp1dec, List.filter_append,
            show u1.filter (fun e => e.type == d.type) = [] from
              List.filter_eq_nil_iff.2 (fun a ha => by simp [hu1 a ha]),
            List.nil_append]
          exact hgl
        have hrm : removeFirstMatch d.type tag (typeUnlink s.devices d.type d) =
            setTypenextById p1 p.devid d.typenext ++ p2 := by
          rw [hul, hsetdist]
          apply removeFirstMatch_eq d.type tag _ p2 d ?_ hmatch
          intro e he
          obtain ⟨e0, he0, hty, htg, _⟩ := mem_setTypenextById p1 p.devid d.typenext e he
          rw [hty, htg]
          exact hp1 e0 he0
        refine ⟨?_, ?_, ?_⟩
        · show (idsOf (removeFirstMatch d.type tag
            (typeUnlink s.devices d.type d))).Nodup
          rw [hrm]
          have hids : idsOf (setTypenextById p1 p.devid d.typenext ++ p2) =
              idsOf (p1 ++ p2) := by
            rw [idsOf, idsOf, List.map_append, List.map_append]
            congr 1
            exact idsOf_setTypenextById p1 _ _
          rw [hids]
          exact nodup_ids_drop (hdec ▸ hnd)
        · show wfLinks (removeFirstMatch d.type tag (typeUnlink s.devices d.type d))
          rw [hrm]
          exact wfLinks_remove_some p1 p2 p (hdec ▸ hnd) (hdec ▸ hwl) hglp1
        · intro e he
          rw [hrm] at he
          rcases List.mem_append.1 he with h3 | h3
          · obtain ⟨e0, he0, _, _, hdev⟩ := mem_setTypenextById p1 p.devid d.typenext e h3
            have h4 := hbound e0 (by rw [hdec]; exact List.mem_append.2 (Or.inl he0))
            show e.devid < s.nextid
            rw [hdev]
            exact h4
          · exact hbound e (by
              rw [hdec]
              exact List.mem_append.2 (Or.inr (List.mem_cons_of_mem d h3)))

/-- The empty registry is well formed. -/
theorem wf_empty : wfState emptyState :=
  ⟨List.nodup_nil, trivial, by intro d hd; cases hd⟩

/-- Each registry operation preserves well-formedness. -/
theorem wf_applyOp (ti : device_type → deviceinfo_fns)
    {s s2 : device_list_state} {op : DevOp}
    (hwf : wfState s) (h : applyOp ti s op = .ok s2) : wfState s2 := by
  cases op with
  | addOp t tag junk =>
    rw [applyOp] at h
    cases hadd : device_list_add ti s t tag junk with
    | error e =>
      rw [hadd] at h
      exact Except.noConfusion h
    | ok r =>
      rw [hadd] at h
      cases r with
      | mk s3 dev =>
        have h2 : s3 = s2 := Except.ok.inj h
        exact h2 ▸ wf_add ti hwf hadd
  | removeOp t tag =>
    rw [applyOp] at h
    exact wf_remove hwf h

/-- Well-formedness is an invariant of every operation sequence. -/
theorem wf_applyOps (ti : device_type → deviceinfo_fns) :
    ∀ (ops : List DevOp) (s s2 : device_list_state),
      wfState s → applyOps ti ops s = .ok s2 → wfState s2 := by
  intro ops
  induction ops with
  | nil =>
    intro s s2 hwf h
    rw [applyOps] at h
    exact (Except.ok.inj h) ▸ hwf
  | cons op ops ih =>
    intro s s2 hwf h
    rw [applyOps] at h
    cases hop : applyOp ti s op with
    | error e =>
      rw [hop] at h
      exact Except.noConfusion h
    | ok s1 =>
      rw [hop] at h
      exact ih s1 s2 (wf_applyOp ti hwf hop) h

/-- With the wildcard filter, `device_list_first` is the head of the global
chain. -/
theorem device_list_first_wildcard (l : List device_config) :
    device_list_first l DEVICE_TYPE_WILDCARD = l.head? := by
  cases l with
  | nil => rfl
  | cons d rest => simp [device_list_first, DEVICE_TYPE_WILDCARD, device_matches_type]

/-- With distinct ids, following the global `next` pointer from a record steps
to its list successor. -/
theorem nextInList_spec :
    ∀ (pre : List device_config) (d : device_config) (post : List device_config),
      (idsOf (pre ++ d :: post)).Nodup →
      nextInList (pre ++ d :: post) d.devid = post.head? := by
  intro pre
  induction pre with
  | nil =>
    intro d post _
    rw [List.nil_append, nextInList, if_pos (by simp)]
  | cons b pre ih =>
    intro d post hnd
    rw [List.cons_append] at hnd
    simp only [idsOf, List.map_cons, List.nodup_cons] at hnd
    rw [List.cons_append, nextInList]
    have hb : (b.devid == d.devid) = false := by
      simp only [beq_eq_false_iff_ne, ne_eq]
      intro hc
      apply hnd.1
      rw [hc, List.map_append, List.map_cons]
      exact List.mem_append.2 (Or.inr (List.mem_cons_self _ _))
    rw [hb]
    simp only [Bool.false_eq_true, if_false]
    exact ih d post hnd.2

/-- C6: after any sequence of `device_list_add` / `device_list_remove`
operations starting from the empty registry, (i) for every concrete type `T`
the `typenext` chain — `device_list_first` on `T` followed by the `typenext`
walk — visits exactly the devices of type `T` in their global (insertion)
order, i.e. the per-type link order is always the global order restricted to
that type; (ii) traversal with `DEVICE_TYPE_WILDCARD` starts at the head of
the global chain and (iii) steps through it in insertion order (each
`device_list_next` yields the record's list successor). -/
theorem c6_traversal_orders (ti : device_type → deviceinfo_fns)
    (ops : List DevOp) (s : device_list_state)
    (h : applyOps ti ops emptyState = .ok s) :
    (∀ T : device_type,
      chainFrom s.devices s.devices.length (firstOfTypeId s.devices T) =
        idsOf (s.devices.filter (fun d => d.type == T))) ∧
    device_list_first s.devices DEVICE_TYPE_WILDCARD = s.devices.head? ∧
    (∀ (pre : List device_config) (d : device_config) (post : List device_config),
      s.devices = pre ++ d :: post →
      device_list_next s.devices d DEVICE_TYPE_WILDCARD = post.head?) := by
  have hwf := wf_applyOps ti ops emptyState s wf_empty h
  refine ⟨fun T => chain_eq_filter hwf.1 hwf.2.1 T,
    device_list_first_wildcard s.devices, ?_⟩
  intro pre d post hdec
  show nextInList s.devices d.devid = post.head?
  rw [hdec]
  exact nextInList_spec pre d post (hdec ▸ hwf.1)

/-- Witness for C6: types `1, 1, 2` added in that order, then the first
type-1 device removed; the type-1 chain is exactly the surviving type-1
record. -/
theorem c6_traversal_orders_witness :
    applyOps okTi c6Ops emptyState = .ok c6State ∧
    chainFrom c6State.devices c6State.devices.length
        (firstOfTypeId c6State.devices 1) =
      idsOf (c6State.devices.filter (fun d => d.type == 1)) := by
  have hp : applyOps okTi c6Ops emptyState = .ok c6State := by rfl
  exact ⟨hp, (c6_traversal_orders okTi c6Ops c6State hp).1 1⟩

end Devintrf
